/-
Verification of the curved-trajectory field propagator and the ORANGE
multi-level navigator of the celeritas repository, against its
natural-language specification.

The embedding is shallow: `real_type` (C++ double) is modelled by `ℚ` so
that every definition is executable and exact; vectors (`Real3`) are
functions `Fin 3 → ℚ`.  Components of the repository whose sources are
present (FieldPropagator.hh, OrangeTrackView.hh, RectArrayTracker.hh,
LevelStateAccessor.hh) are translated directly.  Collaborators whose
sources are not part of the given tree (the field driver template
parameter, GeoTrackView, detail/FieldUtils.hh, SimpleUnitTracker,
NonuniformGrid, the UnitIndexer implementation) are kept abstract as
function parameters; the properties the specification ascribes to them
appear as explicit hypotheses (`FieldContracts`) of the theorems.
-/
import Mathlib

set_option maxRecDepth 4000

namespace Celeritas

/-! ### Shared geometric scalars and vectors -/

/-- A 3-vector of exact rationals, modelling `Real3` (array of 3 doubles). -/
abbrev Real3 := Fin 3 → ℚ

/-- The zero vector. -/
def r3zero : Real3 := fun _ => 0

/-- `axpy a x y = a * x + y` componentwise, modelling `celeritas::axpy`
(which updates `y += a * x`). -/
def axpy (a : ℚ) (x y : Real3) : Real3 := fun i => a * x i + y i

/-- Dot product of two 3-vectors, modelling `dot_product`. -/
def dot3 (a b : Real3) : ℚ := a 0 * b 0 + a 1 * b 1 + a 2 * b 2

/-- Squared Euclidean magnitude of a 3-vector (momentum magnitude is
compared through its square to stay inside ℚ). -/
def momSq (a : Real3) : ℚ := dot3 a a

/-- Side of a surface, modelling `enum class Sense { inside, outside }`. -/
inductive Sense
  | inside
  | outside
deriving DecidableEq, Repr

/-- Modelling `flip_sense`. -/
def flip_sense : Sense → Sense
  | Sense.inside => Sense.outside
  | Sense.outside => Sense.inside

/-- Latched boundary intent, modelling
`enum class BoundaryResult { reentrant, exiting }`. -/
inductive BoundaryResult
  | exiting
  | reentrant
deriving DecidableEq, Repr

/-- Modelling `flip_boundary`. -/
def flip_boundary : BoundaryResult → BoundaryResult
  | BoundaryResult.exiting => BoundaryResult.reentrant
  | BoundaryResult.reentrant => BoundaryResult.exiting

/-- A possibly-null surface id together with a sense, modelling
`detail::OnSurface` / `detail::OnLocalSurface`.  `id = none` is the null
(invalid) surface; `static_cast<bool>` is `id.isSome`. -/
structure OnSurface where
  id : Option ℕ
  sense : Sense
deriving DecidableEq, Repr

/-- Whether the surface id is valid (`operator bool` of `OnSurface`). -/
def OnSurface.valid (s : OnSurface) : Bool := s.id.isSome

/-- The null `OnSurface{}`. -/
def noSurface : OnSurface := ⟨none, Sense.inside⟩

/-- Distances that may be `no_intersection()` (infinity): `none` models the
infinite sentinel of the C++ code, `some d` a finite distance. -/
abbrev Dist := Option ℚ

/-- Strict order on `Dist` with `none` as positive infinity. -/
def dlt : Dist → Dist → Bool
  | some a, some b => decide (a < b)
  | some _, none => true
  | none, _ => false

/-- Non-strict order on `Dist` (total order, so `a ≤ b ↔ ¬ b < a`). -/
def dle (a b : Dist) : Bool := ! dlt b a

/-- Minimum on `Dist`, keeping the first argument on ties (this is exactly
the accumulator update `if (new < acc) acc = new` of the C++ loops). -/
def dmin (a b : Dist) : Dist := if dlt b a then b else a

/-! ### Field propagator (celeritas/field/FieldPropagator.hh)

The propagator is a class template over a driver `DriverT` and acts on a
`GeoTrackView`; neither collaborator's implementation is part of the given
sources, so both are abstract function fields of `FieldEnv`, together with
the helpers of `detail/FieldUtils.hh` (`make_chord`, `is_intercept_close`,
`calc_miss_distance`) and `normalize_direction`. -/

/-- Modelling `OdeState { Real3 pos; Real3 mom; }`. -/
structure OdeState where
  pos : Real3
  mom : Real3
deriving DecidableEq, Repr

/-- Modelling `DriverResult { real_type step; OdeState state; }` returned by
`driver.advance`. -/
structure DriverResult where
  step : ℚ
  state : OdeState
deriving DecidableEq, Repr

/-- Modelling `Propagation { real_type distance; bool boundary; }`, the
result type of the field propagator. -/
structure Propagation where
  distance : ℚ
  boundary : Bool
deriving DecidableEq, Repr

/-- A chord between substep endpoints, modelling the result of
`detail::make_chord` (length and unit direction). -/
structure Chord where
  length : ℚ
  dir : Real3

/-- The environment of one `FieldPropagator<DriverT>` instantiation: the
driver's tunables and `advance`, the chord helpers of
`detail/FieldUtils.hh`, and the `GeoTrackView` operations the propagator
invokes, over an abstract geometry state type `G`. -/
structure FieldEnv (G : Type) where
  minimum_step : ℚ
  delta_intersection : ℚ
  advance : ℚ → OdeState → DriverResult
  make_chord : Real3 → Real3 → Chord
  is_intercept_close : Real3 → Real3 → ℚ → Real3 → ℚ → Bool
  calc_miss_distance : Real3 → Real3 → ℚ → Real3 → ℚ
  normalize_direction : Real3 → Real3
  geo_pos : G → Real3
  geo_dir : G → Real3
  is_on_boundary : G → Bool
  set_dir : G → Real3 → G
  find_next_step : G → ℚ → Propagation × G
  move_internal : G → Real3 → G
  move_to_boundary : G → G

/-- `FieldPropagator::max_substeps()`: the substep budget is 128. -/
def max_substeps : ℕ := 128

/-- The loop state of `FieldPropagator::operator()(real_type)`: the
variables live across iterations of the `do { ... } while` loop.  The
fields `commits`, `last_driver_mom` and `last_commit_mom` are ghost
instrumentation (they record how many substeps were accepted in the
no-boundary branch, the momentum of the most recent `driver.advance`
result, and the momentum of the most recent driver result whose momentum
was copied into `state_`); they influence nothing else. -/
structure LoopState (G : Type) where
  remaining : ℚ
  remaining_substeps : ℕ
  distance : ℚ
  boundary : Bool
  ode : OdeState
  geo : G
  commits : ℕ
  last_driver_mom : Option Real3
  last_commit_mom : Real3
deriving DecidableEq, Repr

/-- The driver trial of one loop iteration:
`DriverResult substep = driver_.advance(remaining, state_)`. -/
def theSubstep {G : Type} (env : FieldEnv G) (ls : LoopState G) : DriverResult :=
  env.advance ls.remaining ls.ode

/-- The chord of one loop iteration:
`auto chord = detail::make_chord(state_.pos, substep.state.pos)`. -/
def theChord {G : Type} (env : FieldEnv G) (ls : LoopState G) : Chord :=
  env.make_chord ls.ode.pos (theSubstep env ls).state.pos

/-- The linear probe of one loop iteration: `geo_.set_dir(chord.dir)`
followed by
`geo_.find_next_step(chord.length + driver_.delta_intersection())`.
Returns the `Propagation` result and the geometry state after both calls. -/
def theFind {G : Type} (env : FieldEnv G) (ls : LoopState G) : Propagation × G :=
  env.find_next_step (env.set_dir ls.geo (theChord env ls).dir)
    ((theChord env ls).length + env.delta_intersection)

/-- One iteration of the substep loop of
`FieldPropagator::operator()(real_type)` (lines 149-231), with its five
mutually exclusive branches in source order: (a) no boundary hit, (b)
tangent re-entry bisection, (c) near-boundary acceptance, (d) close
intercept, (e) proportional refinement. -/
def substepOnce {G : Type} (env : FieldEnv G) (step : ℚ) (ls : LoopState G) :
    LoopState G :=
  let substep := theSubstep env ls
  let chord := theChord env ls
  let linear_step := (theFind env ls).1
  let g2 := (theFind env ls).2
  if linear_step.boundary = false then
    let dist := ls.distance + min substep.step ls.remaining
    { ls with
      ode := substep.state
      boundary := false
      distance := dist
      remaining := step - dist
      geo := env.move_internal g2 substep.state.pos
      remaining_substeps := ls.remaining_substeps - 1
      commits := ls.commits + 1
      last_driver_mom := some substep.state.mom
      last_commit_mom := substep.state.mom }
  else if ls.boundary = true ∧ linear_step.distance < env.minimum_step then
    { ls with
      remaining := substep.step / 2
      geo := g2
      last_driver_mom := some substep.state.mom }
  else if substep.step * linear_step.distance
      ≤ env.minimum_step * chord.length then
    { ls with
      boundary := true
      distance := ls.distance + min linear_step.distance ls.remaining
      ode := { ls.ode with mom := substep.state.mom }
      remaining := 0
      geo := g2
      last_driver_mom := some substep.state.mom
      last_commit_mom := substep.state.mom }
  else if env.is_intercept_close ls.ode.pos chord.dir linear_step.distance
      substep.state.pos env.delta_intersection then
    let miss := env.calc_miss_distance ls.ode.pos chord.dir
      linear_step.distance substep.state.pos
    { ls with
      boundary := true
      distance := ls.distance + (substep.step - miss)
      ode := { ls.ode with mom := substep.state.mom }
      remaining := 0
      geo := g2
      last_driver_mom := some substep.state.mom
      last_commit_mom := substep.state.mom }
  else
    { ls with
      remaining := substep.step * linear_step.distance / chord.length
      geo := g2
      last_driver_mom := some substep.state.mom }

/-- The `do { ... } while (remaining >= driver_.minimum_step() &&
remaining_substeps > 0)` loop.  The loop body always runs at least once;
`fuel` bounds the number of iterations of the shallow embedding (`none`
means the bound was exhausted before the loop condition failed: with an
adversarial abstract driver the real loop need not terminate, so this
conditioning is the honest translation). -/
def propagateLoop {G : Type} (env : FieldEnv G) (step : ℚ) :
    ℕ → LoopState G → Option (LoopState G)
  | 0, _ => none
  | fuel + 1, ls =>
    let ls' := substepOnce env step ls
    if env.minimum_step ≤ ls'.remaining ∧ 0 < ls'.remaining_substeps then
      propagateLoop env step fuel ls'
    else
      some ls'

/-- The loop state at entry of `FieldPropagator::operator()(real_type)`:
`remaining = step`, full substep budget, zero distance, and
`result.boundary = geo_.is_on_boundary()`. -/
def initLoopState {G : Type} (env : FieldEnv G) (step : ℚ) (g : G)
    (ode : OdeState) : LoopState G :=
  { remaining := step
    remaining_substeps := max_substeps
    distance := 0
    boundary := env.is_on_boundary g
    ode := ode
    geo := g
    commits := 0
    last_driver_mom := none
    last_commit_mom := ode.mom }

/-- The value returned by `FieldPropagator::operator()` together with the
final internal `OdeState` and geometry state (plus the ghost fields). -/
structure FinalState (G : Type) where
  result : Propagation
  ode : OdeState
  geo : G
  last_driver_mom : Option Real3
  last_commit_mom : Real3
deriving DecidableEq, Repr

/-- The post-loop fixups of `FieldPropagator::operator()(real_type)`
(lines 234-271): move to the boundary or charge the remainder, re-derive
the direction from the momentum, and the stuck-track escape bump. -/
def propagateFinish {G : Type} (env : FieldEnv G) (step : ℚ)
    (ls : LoopState G) : FinalState G :=
  let ls1 :=
    if 0 < ls.distance then
      if ls.boundary = true then
        let g' := env.move_to_boundary ls.geo
        { ls with geo := g', ode := { ls.ode with pos := env.geo_pos g' } }
      else if 0 < ls.remaining_substeps then
        { ls with distance := ls.distance + ls.remaining }
      else ls
    else ls
  let dir := env.normalize_direction ls1.ode.mom
  let g2 := env.set_dir ls1.geo dir
  if ls1.distance = 0 then
    let d := min env.minimum_step step
    let newpos := axpy d dir ls1.ode.pos
    { result := ⟨d, false⟩
      ode := { ls1.ode with pos := newpos }
      geo := env.move_internal g2 newpos
      last_driver_mom := ls1.last_driver_mom
      last_commit_mom := ls1.last_commit_mom }
  else
    { result := ⟨ls1.distance, ls1.boundary⟩
      ode := ls1.ode
      geo := g2
      last_driver_mom := ls1.last_driver_mom
      last_commit_mom := ls1.last_commit_mom }

/-- `FieldPropagator::operator()(real_type step)`: run the substep loop
from the entry state, then apply the post-loop fixups.  `g` and `ode` are
the geometry view and the internal `OdeState` built by the constructor
(position taken from the geometry, momentum along its direction). -/
def propagate {G : Type} (env : FieldEnv G) (step : ℚ) (fuel : ℕ) (g : G)
    (ode : OdeState) : Option (FinalState G) :=
  (propagateLoop env step fuel (initLoopState env step g ode)).map
    (propagateFinish env step)

/-- The contracts the specification ascribes to the propagator's abstract
collaborators (driver §4.5, navigator §4.4, chord helpers §4.6 of the
spec); the sources of these collaborators are not part of the given tree.
All hypotheses are properties the C++ code asserts (`CELER_ASSERT`) or the
spec states; in particular `miss_bounds` is exactly the branch-(d)
assertion `0 ≤ miss_distance < substep.step` the propagator makes after
`calc_miss_distance`, stated for a close intercept of a driver substep. -/
structure FieldContracts {G : Type} (env : FieldEnv G) : Prop where
  min_step_pos : 0 < env.minimum_step
  delta_pos : 0 < env.delta_intersection
  advance_pos : ∀ r s, 0 < r → 0 < (env.advance r s).step
  advance_le : ∀ r s, 0 < r → (env.advance r s).step ≤ r
  chord_nonneg : ∀ a b, 0 ≤ (env.make_chord a b).length
  chord_le_step : ∀ r s, 0 < r →
    (env.make_chord s.pos (env.advance r s).state.pos).length
      ≤ (env.advance r s).step
  find_nonneg : ∀ g d, 0 < d → 0 ≤ (env.find_next_step g d).1.distance
  find_le : ∀ g d, 0 < d → (env.find_next_step g d).1.distance ≤ d
  find_onb : ∀ g d,
    env.is_on_boundary (env.find_next_step g d).2 = env.is_on_boundary g
  set_dir_onb : ∀ g u,
    env.is_on_boundary (env.set_dir g u) = env.is_on_boundary g
  set_dir_dir : ∀ g u, env.geo_dir (env.set_dir g u) = u
  move_internal_onb : ∀ g p, env.is_on_boundary (env.move_internal g p) = false
  move_internal_pos : ∀ g p, env.geo_pos (env.move_internal g p) = p
  move_internal_dir : ∀ g p,
    env.geo_dir (env.move_internal g p) = env.geo_dir g
  move_to_boundary_onb : ∀ g,
    env.is_on_boundary (env.move_to_boundary g) = true
  miss_bounds : ∀ r s l, 0 < r →
    env.is_intercept_close s.pos
        (env.make_chord s.pos (env.advance r s).state.pos).dir l
        (env.advance r s).state.pos env.delta_intersection = true →
    0 ≤ env.calc_miss_distance s.pos
        (env.make_chord s.pos (env.advance r s).state.pos).dir l
        (env.advance r s).state.pos ∧
      env.calc_miss_distance s.pos
        (env.make_chord s.pos (env.advance r s).state.pos).dir l
        (env.advance r s).state.pos < (env.advance r s).step
  far_le_chord : ∀ a b l, 0 ≤ l →
    l ≤ (env.make_chord a b).length + env.delta_intersection →
    env.is_intercept_close a (env.make_chord a b).dir l b
        env.delta_intersection = false →
    l ≤ (env.make_chord a b).length

/-- The invariant of the substep loop used to establish the propagator's
post-conditions: the remaining length and accumulated distance are
non-negative, together they never exceed the requested step, and whenever
the result's boundary flag is clear the navigator is off-boundary. -/
def LoopInv {G : Type} (env : FieldEnv G) (step : ℚ) (ls : LoopState G) : Prop :=
  0 ≤ ls.remaining ∧ 0 ≤ ls.distance ∧ ls.distance + ls.remaining ≤ step ∧
    (ls.boundary = false → env.is_on_boundary ls.geo = false)

/-- The momentum-provenance invariant: the internal momentum always equals
the momentum of the last committed driver output (ghost
`last_commit_mom`), which is the initial momentum or some driver result. -/
def MomInv {G : Type} (env : FieldEnv G) (m0 : Real3) (ls : LoopState G) : Prop :=
  ls.ode.mom = ls.last_commit_mom ∧
    (ls.last_commit_mom = m0 ∨
      ∃ r s, ls.last_commit_mom = (env.advance r s).state.mom)

/-! ### ORANGE multi-level navigator (orange/OrangeTrackView.hh)

The per-level state mirrors `LevelStateAccessor`; the per-universe local
trackers (`SimpleUnitTracker` is not among the given sources) and the
`UnitIndexer` implementation are abstract fields of `OrangeParams`.
The model follows the release configuration (`CELERITAS_DEBUG` off):
`clear_next_step` resets only `next_step_`, and `cross_boundary` falls
back to the exterior volume when the tracker reports no neighbour. -/

/-- One level's slice of `OrangeStateData`, as exposed by
`LevelStateAccessor` (vol, pos, dir, universe, surf, sense, boundary). -/
structure LevelState where
  vol : Option ℕ
  pos : Real3
  dir : Real3
  univ : ℕ
  surf : Option ℕ
  sense : Sense
  boundary : BoundaryResult
deriving DecidableEq, Repr

/-- Modelling `detail::LocalState` (scratch spans omitted: they are
per-thread scratch buffers with no semantic content). -/
structure LocalState where
  pos : Real3
  dir : Real3
  volume : Option ℕ
  surface : OnSurface
deriving DecidableEq, Repr

/-- Modelling `detail::Intersection` (distance may be
`no_intersection()`, i.e. `none`). -/
structure Intersection where
  distance : Dist
  surface : OnSurface
deriving DecidableEq, Repr

/-- Modelling `detail::Initialization`. -/
structure Initialization where
  volume : Option ℕ
  surface : OnSurface
deriving DecidableEq, Repr

/-- The local-tracker interface of `orange/univ/Tracker.hh` restricted to
the operations `OrangeTrackView` invokes in the claims under study. -/
structure TrackerModel where
  intersect : LocalState → Dist → Intersection
  cross_boundary : LocalState → Initialization
  normal : Real3 → Option ℕ → Real3

/-- The immutable parameters `OrangeTrackView` consults: the top universe
id, the `volume_records[...].daughter` map, one tracker per universe id
(`make_tracker`), and the unit-indexer conversions
(`global_surface`, `local_volume`). -/
structure OrangeParams where
  top_universe : ℕ
  daughter : ℕ → Option ℕ
  tracker : ℕ → TrackerModel
  global_surface : ℕ → ℕ → ℕ
  local_volume : ℕ → ℕ

/-- The per-track state of `OrangeTrackView`: the level stack, the current
and next level indices, and the view-local cached `next_step_` /
`next_surface_`. -/
structure TrackState where
  levels : ℕ → LevelState
  level : ℕ
  next_level : ℕ
  next_step : Dist
  next_surface : OnSurface

namespace Orange

/-- The current level's record (`make_lsa()` at the current level index). -/
def cur (s : TrackState) : LevelState := s.levels s.level

/-- Rewrite the current level's record, leaving other levels alone. -/
def updCur (s : TrackState) (f : LevelState → LevelState) : TrackState :=
  { s with levels := fun l => if l = s.level then f (s.levels l) else s.levels l }

/-- `OrangeTrackView::surface_id()`. -/
def surface_id (s : TrackState) : Option ℕ := (cur s).surf

/-- `OrangeTrackView::is_on_boundary()`: true iff the current surface id
is valid. -/
def is_on_boundary (s : TrackState) : Bool := (surface_id s).isSome

/-- `OrangeTrackView::has_next_step()`: `next_step_ != 0`. -/
def has_next_step (s : TrackState) : Bool := decide (s.next_step ≠ some 0)

/-- `OrangeTrackView::clear_next_step()` in the release configuration:
only `next_step_ = 0`; the stale `next_surface_` is kept (it is only read
when `next_step_` is nonzero). -/
def clear_next_step (s : TrackState) : TrackState := { s with next_step := some 0 }

/-- `OrangeTrackView::make_local_state(level)`: per-level pos/dir, the
unit-indexer-localized volume, and the level's surface+sense. -/
def make_local_state (P : OrangeParams) (s : TrackState) (lvl : ℕ) : LocalState :=
  { pos := (s.levels lvl).pos
    dir := (s.levels lvl).dir
    volume := (s.levels lvl).vol.map P.local_volume
    surface := ⟨(s.levels lvl).surf, (s.levels lvl).sense⟩ }

/-- Accumulator of `find_next_step_impl`: the running minimum distance,
its local surface, and the universe that produced it. -/
structure FnsAcc where
  min_step : Dist
  min_surface : OnSurface
  min_uid : Option ℕ
deriving DecidableEq, Repr

/-- The body of one iteration of the `do`-loop of
`OrangeTrackView::find_next_step_impl` (lines 582-598): intersect the
universe `check` with the local state of level `lvl`, retain a strict
improvement of the minimum. -/
def accUpdate (P : OrangeParams) (s : TrackState) (max : Dist) (check lvl : ℕ)
    (acc : FnsAcc) : FnsAcc :=
  let isect := (P.tracker check).intersect (make_local_state P s lvl) max
  if dlt isect.distance acc.min_step then
    ⟨isect.distance, isect.surface, some check⟩
  else
    acc

/-- The `do { ... } while (check_uid != current_uid)` loop of
`find_next_step_impl`: walk the daughter chain from the top universe,
fuelled by the depth of the level stack.  `none` models a broken chain
(the C++ would read garbage). -/
def fnsLoop (P : OrangeParams) (s : TrackState) (max : Dist) :
    ℕ → ℕ → ℕ → FnsAcc → Option FnsAcc
  | 0, _, _, _ => none
  | fuel + 1, check, lvl, acc =>
    let acc' := accUpdate P s max check lvl acc
    if check = (cur s).univ then
      some acc'
    else
      match (s.levels lvl).vol.bind P.daughter with
      | some nxt => fnsLoop P s max fuel nxt (lvl + 1) acc'
      | none => none

/-- `OrangeTrackView::find_next_step_impl(max_step)` (lines 563-616):
run the cross-universe search and store the winning distance in
`next_step_`; convert the winning local surface to a global surface id via
the unit indexer before caching it in `next_surface_`. -/
def find_next_step_impl (P : OrangeParams) (s : TrackState) (max : Dist) :
    Option TrackState :=
  match fnsLoop P s max (s.level + 1) P.top_universe 0 ⟨max, noSurface, none⟩ with
  | none => none
  | some acc =>
    some { s with
      next_step := acc.min_step
      next_surface :=
        match acc.min_uid with
        | some u => ⟨acc.min_surface.id.map (P.global_surface u), acc.min_surface.sense⟩
        | none => acc.min_surface }

/-- The navigator's `Propagation` (the distance can be the
`no_intersection()` sentinel when no max step is given). -/
structure NavPropagation where
  distance : Dist
  boundary : Bool
deriving DecidableEq, Repr

/-- `OrangeTrackView::find_next_step()` (no maximum; lines 326-351). -/
def find_next_step (P : OrangeParams) (s0 : TrackState) :
    Option (NavPropagation × TrackState) :=
  if (cur s0).boundary = BoundaryResult.reentrant then
    some (⟨some 0, true⟩, s0)
  else
    let s1 :=
      if s0.next_surface.valid = false ∧ s0.next_step ≠ none then
        clear_next_step s0
      else s0
    match (if has_next_step s1 = false then find_next_step_impl P s1 none
           else some s1) with
    | none => none
    | some s2 => some (⟨s2.next_step, s2.next_surface.valid⟩, s2)

/-- `OrangeTrackView::find_next_step(real_type max_step)` (lines 360-393). -/
def find_next_step_max (P : OrangeParams) (s0 : TrackState) (max_step : ℚ) :
    Option (NavPropagation × TrackState) :=
  if (cur s0).boundary = BoundaryResult.reentrant then
    some (⟨some 0, true⟩, s0)
  else if dlt (some max_step) s0.next_step then
    some (⟨some max_step, false⟩, s0)
  else
    let s1 :=
      if s0.next_surface.valid = false ∧ dlt s0.next_step (some max_step) then
        clear_next_step s0
      else s0
    match (if has_next_step s1 = false then
             find_next_step_impl P s1 (some max_step)
           else some s1) with
    | none => none
    | some s2 => some (⟨s2.next_step, s2.next_surface.valid⟩, s2)

/-- `OrangeTrackView::move_to_boundary()` (lines 399-419): advance the
current position by the cached step along the current direction, latch the
cached next surface as the current surface, clear the cache. -/
def move_to_boundary (s : TrackState) : TrackState :=
  clear_next_step (updCur s fun l =>
    { l with
      pos := axpy (s.next_step.getD 0) l.dir l.pos
      surf := s.next_surface.id
      sense := s.next_surface.sense })

/-- `OrangeTrackView::move_internal(real_type dist)` (lines 428-444). -/
def move_internal (s : TrackState) (dist : ℚ) : TrackState :=
  { (updCur s fun l =>
      { l with pos := axpy dist l.dir l.pos, surf := none }) with
    next_step := s.next_step.map (fun d => d - dist) }

/-- `OrangeTrackView::move_internal(Real3 const& pos)` (lines 453-460). -/
def move_internal_pos (s : TrackState) (p : Real3) : TrackState :=
  clear_next_step (updCur s fun l => { l with pos := p, surf := none })

/-- `OrangeTrackView::cross_boundary()` (lines 469-515): a reentrant latch
makes the crossing a no-op that restores the exiting intent; otherwise the
sense is flipped, the level-0 tracker is consulted, and the volume,
surface and sense are updated (with the release fallback to the exterior
volume when the tracker finds no neighbour). -/
def cross_boundary (P : OrangeParams) (s : TrackState) : TrackState :=
  let lsa := cur s
  if lsa.boundary = BoundaryResult.reentrant then
    updCur s fun l => { l with boundary := BoundaryResult.exiting }
  else
    let lstate : LocalState :=
      { pos := lsa.pos
        dir := lsa.dir
        volume := lsa.vol
        surface := ⟨lsa.surf, flip_sense lsa.sense⟩ }
    let found := (P.tracker 0).cross_boundary lstate
    let found' := if found.volume = none then ⟨some 0, noSurface⟩ else found
    updCur s fun l =>
      { l with
        vol := found'.volume
        surf := found'.surface.id
        sense := found'.surface.sense
        boundary := BoundaryResult.exiting }

/-- `OrangeTrackView::set_dir(newdir)` (lines 527-555): on a boundary,
flip the latched intent when the sign of `normal · dir` changes; then
assign the direction and clear the cached step. -/
def set_dir (P : OrangeParams) (s : TrackState) (newdir : Real3) : TrackState :=
  let s1 :=
    if is_on_boundary s = true then
      let n := (P.tracker 0).normal (cur s).pos (cur s).surf
      if (decide (0 ≤ dot3 n newdir)) ≠ (decide (0 ≤ dot3 n (cur s).dir)) then
        updCur s fun l => { l with boundary := flip_boundary l.boundary }
      else s
    else s
  clear_next_step (updCur s1 fun l => { l with dir := newdir })

/-- `OrangeTrackView::operator=(DetailedInitializer const&)` (lines
270-299), for a destination slot distinct from the parent's: the loop
`for (auto i : range(states_.level[init.other.thread_]))` copies the
fields vol/pos/dir/surf/sense/boundary of levels `0 .. L-1` (where `L` is
the parent's current level index) from the parent slot, then copies the
level indices and clears the cached step.  The supplied new direction is
never written, and neither the deepest level `L` nor the per-level
universe field is copied. -/
def assignDetailed (dest other : TrackState) (_newdir : Real3) : TrackState :=
  { levels := fun i =>
      if i < other.level then
        { dest.levels i with
          vol := (other.levels i).vol
          pos := (other.levels i).pos
          dir := (other.levels i).dir
          surf := (other.levels i).surf
          sense := (other.levels i).sense
          boundary := (other.levels i).boundary }
      else dest.levels i
    level := other.level
    next_level := other.next_level
    next_step := some 0
    next_surface := dest.next_surface }

/-- The chain of universes the `find_next_step_impl` loop visits, from
level `k` down to the current level: each list entry is the universe
checked at one level, successor entries are daughters, only the last entry
is the current universe, and it sits at the current level. -/
def ChainFrom (P : OrangeParams) (s : TrackState) : ℕ → List ℕ → Prop
  | _, [] => False
  | k, [u] => k = s.level ∧ (cur s).univ = u
  | k, u :: u' :: rest =>
    u ≠ (cur s).univ ∧ (s.levels k).vol.bind P.daughter = some u' ∧
      ChainFrom P s (k + 1) (u' :: rest)

/-- The distances the trackers of a universe chain report (universe `u`
queried with the local state of its level). -/
def chainDists (P : OrangeParams) (s : TrackState) (max : Dist) :
    List ℕ → ℕ → List Dist
  | [], _ => []
  | u :: rest, k =>
    ((P.tracker u).intersect (make_local_state P s k) max).distance
      :: chainDists P s max rest (k + 1)

/-- The accumulator the `find_next_step_impl` loop produces on a universe
chain, expressed as a list fold of the loop body. -/
def chainFold (P : OrangeParams) (s : TrackState) (max : Dist) :
    List ℕ → ℕ → FnsAcc → FnsAcc
  | [], _, acc => acc
  | u :: rest, k, acc => chainFold P s max rest (k + 1) (accUpdate P s max u k acc)

end Orange

/-! ### Rectilinear-array tracker (orange/univ/RectArrayTracker.hh)

The grids are lists of exact rationals.  `HyperslabIndexer` /
`RaggedRightIndexer` (corecel, not among the given sources) are the usual
row-major and prefix-sum indexers, matching the layout the spec's test
scenario 4 exhibits. -/

namespace RectArray

/-- `RectArrayRecord`: one nonuniform grid per axis and the configured
background volume id. -/
structure Rec where
  grids : Fin 3 → List ℚ
  background : Option ℕ

/-- Number of cells along an axis: `grid.size() - 1`. -/
def dims (r : Rec) (a : Fin 3) : ℕ := (r.grids a).length - 1

/-- Grid point `i` of axis `a` (`params_.reals[record_.grid[ax]][i]`). -/
def gridAt (r : Rec) (a : Fin 3) (i : ℕ) : ℚ := (r.grids a).getD i 0

/-- First grid point of a list (`grid.front()`). -/
def frontD : List ℚ → ℚ
  | [] => 0
  | x :: _ => x

/-- Last grid point of a list (`grid.back()`). -/
def backD : List ℚ → ℚ
  | [] => 0
  | [x] => x
  | _ :: x :: xs => backD (x :: xs)

/-- Modelled from the spec: `NonuniformGrid::find` (corecel, not among the
given sources) locates the grid cell containing a value; for a sorted grid
whose front is at most `p` this returns the largest index whose grid point
is at most `p`, so that a value sitting exactly on a grid plane is mapped
to that plane's index (the spec requires `initialize` to detect and
reject such on-edge positions). -/
def gridFind : List ℚ → ℚ → ℕ
  | [], _ => 0
  | [_], _ => 0
  | _ :: b :: rest, p => if p < b then 0 else gridFind (b :: rest) p + 1

/-- Modelled from the spec: the row-major `HyperslabIndexer<3>` (spec §6
"prefix sums over per-universe counts" and test scenario 4's
`1 + 4·i + j` layout): `(c0 * Ny + c1) * Nz + c2`. -/
def volIndex (r : Rec) (c : Fin 3 → ℕ) : ℕ :=
  (c 0 * dims r 1 + c 1) * dims r 2 + c 2

/-- Modelled from the spec: the inverse row-major indexer
(`HyperslabInverseIndexer<3>`). -/
def volCoords (r : Rec) (v : ℕ) : Fin 3 → ℕ :=
  ![v / (dims r 1 * dims r 2), v / dims r 2 % dims r 1, v % dims r 2]

/-- Modelled from the spec: `RaggedRightIndexer<3>` over the per-axis
surface counts `(Nx+1, Ny+1, Nz+1)`: prefix-sum offset plus the plane
index. -/
def surfIndex (r : Rec) (a : Fin 3) (j : ℕ) : ℕ :=
  if a = 0 then j
  else if a = 1 then (dims r 0 + 1) + j
  else (dims r 0 + 1) + (dims r 1 + 1) + j

/-- The per-axis step of `RectArrayTracker::initialize` (lines 150-177):
`none` when the position is outside the overall extent of this axis or
sits exactly on a grid plane, otherwise the cell index along the axis. -/
def axisCell (g : List ℚ) (p : ℚ) : Option ℕ :=
  if p < frontD g ∨ backD g < p then
    none
  else
    let i := gridFind g p
    if g.getD i 0 = p then none else some i

/-- `RectArrayTracker::initialize` (lines 144-181): reject positions
outside the extent or exactly on a grid plane by returning the background
volume with no surface; otherwise return the cell volume of the per-axis
coordinates.  (The C++ returns from the first failing axis; the result is
the same.) -/
def rectInit (r : Rec) (pos : Real3) : Initialization :=
  match axisCell (r.grids 0) (pos 0), axisCell (r.grids 1) (pos 1),
      axisCell (r.grids 2) (pos 2) with
  | some i, some j, some k => ⟨some (volIndex r ![i, j, k]), noSurface⟩
  | _, _, _ => ⟨r.background, noSurface⟩

/-- `RectArrayTracker::safety(pos, volid)` (lines 257-281): the minimum
over the six bounding planes of the cell of the axis-aligned distance to
the plane. -/
def safety (r : Rec) (pos : Real3) (vol : ℕ) : ℚ :=
  let c := volCoords r vol
  let d : Fin 3 → ℕ → ℚ := fun a i => |pos a - gridAt r a (c a + i)|
  min (min (min (d 0 0) (d 0 1)) (min (d 1 0) (d 1 1))) (min (d 2 0) (d 2 1))

/-- One axis of the loop of `RectArrayTracker::intersect_impl`
(lines 331-359): skip a stationary axis, otherwise compute the distance to
the grid plane the ray is heading toward and retain a strict improvement. -/
def axisStep (r : Rec) (c : Fin 3 → ℕ) (pos dir : Real3) (a : Fin 3)
    (acc : Intersection) : Intersection :=
  let d := dir a
  if d = 0 then acc
  else
    let target_coord := c a + (if 0 < d then 1 else 0)
    let target := gridAt r a target_coord
    let dist := (target - pos a) / d
    if 0 < dist ∧ dlt (some dist) acc.distance then
      { distance := some dist
        surface := ⟨some (surfIndex r a target_coord),
                    if 0 < d then Sense.inside else Sense.outside⟩ }
    else acc

/-- The axis loop of `RectArrayTracker::intersect_impl` before the final
validity filter. -/
def intersect_impl (r : Rec) (ls : LocalState) : Intersection :=
  let c := volCoords r (ls.volume.getD 0)
  axisStep r c ls.pos ls.dir 2
    (axisStep r c ls.pos ls.dir 1
      (axisStep r c ls.pos ls.dir 0 ⟨none, noSurface⟩))

/-- `RectArrayTracker::intersect(state)` (lines 225-230): the unbounded
overload keeps any finite intersection (`IsFinite`), else the null
intersection. -/
def intersect (r : Rec) (ls : LocalState) : Intersection :=
  let res := intersect_impl r ls
  if res.distance ≠ none then res else ⟨none, noSurface⟩

/-- `RectArrayTracker::intersect(state, max_dist)` (lines 236-248): keep a
hit not further than `max_dist` (`IsNotFurtherThan`), else report
`max_dist` itself with no surface. -/
def intersect_max (r : Rec) (ls : LocalState) (max_dist : ℚ) : Intersection :=
  let res0 := intersect_impl r ls
  let res := if dle res0.distance (some max_dist) = true then res0
             else ⟨none, noSurface⟩
  if res.surface.valid = false then ⟨some max_dist, res.surface⟩ else res

end RectArray

/-! ### Concrete instances used to exercise the theorems -/

/-- The x unit vector. -/
def e1 : Real3 := ![1, 0, 0]

/-- A minimal concrete geometry state for instantiating the abstract
`GeoTrackView` of the field propagator. -/
structure TestGeo where
  pos : Real3
  dir : Real3
  onb : Bool
deriving DecidableEq, Repr

/-- A concrete environment satisfying `FieldContracts`: the driver takes
the whole requested substep along x and reports a momentum depending on
the substep length; the geometry always reports a boundary at 1/25 of the
probe length. -/
def testEnv : FieldEnv TestGeo :=
  { minimum_step := 1 / 10
    delta_intersection := 1 / 100
    advance := fun r s => ⟨r, ⟨axpy r e1 s.pos, ![r, 0, 0]⟩⟩
    make_chord := fun a b => ⟨|b 0 - a 0|, e1⟩
    is_intercept_close := fun _ _ _ _ _ => true
    calc_miss_distance := fun _ _ _ _ => 0
    normalize_direction := fun m => m
    geo_pos := fun g => g.pos
    geo_dir := fun g => g.dir
    is_on_boundary := fun g => g.onb
    set_dir := fun g u => { g with dir := u }
    find_next_step := fun g d => (⟨d / 25, true⟩, g)
    move_internal := fun g p => ⟨p, g.dir, false⟩
    move_to_boundary := fun g => { g with onb := true } }

/-- Starting geometry state for the concrete propagator runs: on a
boundary, heading along x. -/
def testGeo0 : TestGeo := ⟨r3zero, e1, true⟩

/-- Starting internal ODE state for the concrete propagator runs. -/
def testOde0 : OdeState := ⟨r3zero, ![2, 0, 0]⟩

/-- The loop state the concrete run exits with. -/
def testLoopOut : LoopState TestGeo :=
  (propagateLoop testEnv 1 10 (initLoopState testEnv 1 testGeo0 testOde0)).getD
    (initLoopState testEnv 1 testGeo0 testOde0)

/-- The final state of the concrete propagator run. -/
def testFinal : FinalState TestGeo :=
  (propagate testEnv 1 10 testGeo0 testOde0).getD
    ⟨⟨0, false⟩, testOde0, testGeo0, none, r3zero⟩

namespace Orange

/-- A tracker with no intersections, used where a tracker is never
consulted. -/
def trivTracker : TrackerModel :=
  { intersect := fun _ _ => ⟨none, noSurface⟩
    cross_boundary := fun _ => ⟨none, noSurface⟩
    normal := fun _ _ => e1 }

/-- Trivial ORANGE parameters for the reentrant-latch run. -/
def p10 : OrangeParams :=
  { top_universe := 0
    daughter := fun _ => none
    tracker := fun _ => trivTracker
    global_surface := fun _ l => l
    local_volume := id }

/-- A track state whose current level has a latched reentrant intent. -/
def s10 : TrackState :=
  { levels := fun _ =>
      ⟨some 1, r3zero, e1, 0, some 2, Sense.inside, BoundaryResult.reentrant⟩
    level := 0
    next_level := 0
    next_step := some 0
    next_surface := noSurface }

/-- Parameters with a two-universe chain (7 := top, 9 := daughter of
global volume 3) whose trackers report fixed intersections; the unit
indexer maps local surface `l` of universe `u` to `100 * u + l`. -/
def p2 : OrangeParams :=
  { top_universe := 7
    daughter := fun v => if v = 3 then some 9 else none
    tracker := fun u =>
      if u = 7 then
        { intersect := fun _ _ => ⟨some 5, ⟨some 11, Sense.outside⟩⟩
          cross_boundary := fun _ => ⟨none, noSurface⟩
          normal := fun _ _ => e1 }
      else
        { intersect := fun _ _ => ⟨some 2, ⟨some 13, Sense.inside⟩⟩
          cross_boundary := fun _ => ⟨none, noSurface⟩
          normal := fun _ _ => e1 }
    global_surface := fun u l => 100 * u + l
    local_volume := id }

/-- A two-level track state inside universe 9 (level 1), with no cached
step. -/
def s2state : TrackState :=
  { levels := fun l =>
      if l = 0 then
        ⟨some 3, r3zero, e1, 7, none, Sense.inside, BoundaryResult.exiting⟩
      else
        ⟨some 4, r3zero, e1, 9, none, Sense.inside, BoundaryResult.exiting⟩
    level := 1
    next_level := 1
    next_step := some 0
    next_surface := noSurface }

/-- Parameters whose level-0 tracker reports a fixed boundary-crossing
neighbour (volume 1, surface 5 from outside) and a fixed +x normal. -/
def p4 : OrangeParams :=
  { top_universe := 0
    daughter := fun _ => none
    tracker := fun _ =>
      { intersect := fun _ _ => ⟨none, noSurface⟩
        cross_boundary := fun _ => ⟨some 1, ⟨some 5, Sense.outside⟩⟩
        normal := fun _ _ => e1 }
    global_surface := fun _ l => l
    local_volume := id }

/-- A single-level track state on surface 5 with exiting intent and no
cached step. -/
def s4state : TrackState :=
  { levels := fun _ =>
      ⟨some 8, r3zero, e1, 0, some 5, Sense.inside, BoundaryResult.exiting⟩
    level := 0
    next_level := 0
    next_step := some 0
    next_surface := noSurface }

/-- A parent track state at level 0 for the detailed-initializer run. -/
def s7parent : TrackState :=
  { levels := fun _ =>
      ⟨some 1, e1, e1, 0, none, Sense.inside, BoundaryResult.exiting⟩
    level := 0
    next_level := 0
    next_step := some 0
    next_surface := noSurface }

/-- A destination slot holding stale data different from the parent's. -/
def s7dest : TrackState :=
  { levels := fun _ =>
      ⟨some 2, r3zero, ![0, 1, 0], 5, some 9, Sense.outside,
        BoundaryResult.reentrant⟩
    level := 3
    next_level := 3
    next_step := some 7
    next_surface := ⟨some 4, Sense.outside⟩ }

end Orange

namespace RectArray

/-- A concrete 2x1x1 rect array on `[0,2] x [0,1] x [0,1]` with background
volume 99. -/
def r8 : Rec :=
  { grids := ![[(0 : ℚ), 1, 2], [(0 : ℚ), 1], [(0 : ℚ), 1]]
    background := some 99 }

end RectArray

/-! ## Theorems -/

section

/- Batteries marks the rational operations irreducible; witnesses evaluate
concrete runs with `decide`, so they are made semireducible for this
section. -/
attribute [local semireducible] Rat.add Rat.mul Rat.sub Rat.inv

namespace Orange

/-- Updating the current level commutes with reading it. -/
theorem cur_updCur (s : TrackState) (f : LevelState → LevelState) :
    cur (updCur s f) = f (cur s) := by
  simp [cur, updCur]

/-- Updating the current level does not move the level index. -/
theorem level_updCur (s : TrackState) (f : LevelState → LevelState) :
    (updCur s f).level = s.level := rfl

/-- Clearing the cached step does not change the level records. -/
theorem cur_clear (s : TrackState) : cur (clear_next_step s) = cur s := rfl

/-- On a reentrant latch, `cross_boundary` only restores the exiting
intent. -/
theorem cross_boundary_reentrant (P : OrangeParams) (s : TrackState)
    (h : (cur s).boundary = BoundaryResult.reentrant) :
    cross_boundary P s
      = updCur s (fun l => { l with boundary := BoundaryResult.exiting }) := by
  unfold cross_boundary
  rw [if_pos h]

end Orange

/-- C10: whenever the current level's latched boundary intent is
reentrant, both overloads of the navigator's `find_next_step` return
distance 0 with `boundary = true` immediately, performing no intersection
search and leaving the track state (in particular the cached next step and
next surface) unmodified. -/
theorem find_next_step_reentrant_zero (P : OrangeParams) (s : TrackState)
    (max_step : ℚ)
    (hre : (Orange.cur s).boundary = BoundaryResult.reentrant)
    (_hmax : 0 < max_step) :
    Orange.find_next_step P s = some (⟨some 0, true⟩, s) ∧
      Orange.find_next_step_max P s max_step = some (⟨some 0, true⟩, s) := by
  constructor
  · unfold Orange.find_next_step
    rw [if_pos hre]
  · unfold Orange.find_next_step_max
    rw [if_pos hre]

/-- C10 witness: a concrete reentrant track state. -/
theorem find_next_step_reentrant_zero_witness :
    Orange.find_next_step Orange.p10 Orange.s10
        = some (⟨some 0, true⟩, Orange.s10) ∧
      Orange.find_next_step_max Orange.p10 Orange.s10 3
        = some (⟨some 0, true⟩, Orange.s10) :=
  find_next_step_reentrant_zero Orange.p10 Orange.s10 3 (by decide) (by decide)

/-- C7: the claim fails on the code.  Assigning
`DetailedInitializer{parent, d}` copies only levels `0 .. L-1`, so for a
parent occupying level 0 nothing at all is copied: the destination keeps
its stale deepest-level record (volume, surface, sense, direction), and
the supplied new direction `d` is never applied; only the level index and
the cached-step clearing behave as claimed. -/
theorem detailed_initializer_bug :
    (Orange.assignDetailed Orange.s7dest Orange.s7parent ![0, 0, 1]).level
        = Orange.s7parent.level ∧
      ((Orange.assignDetailed Orange.s7dest Orange.s7parent ![0, 0, 1]).levels 0).vol
        ≠ (Orange.s7parent.levels 0).vol ∧
      ((Orange.assignDetailed Orange.s7dest Orange.s7parent ![0, 0, 1]).levels 0).dir
        ≠ ![0, 0, 1] ∧
      ((Orange.assignDetailed Orange.s7dest Orange.s7parent ![0, 0, 1]).levels 0).surf
        ≠ (Orange.s7parent.levels 0).surf ∧
      (Orange.assignDetailed Orange.s7dest Orange.s7parent ![0, 0, 1]).next_step
        = some 0 := by
  decide

/-- C4: `cross_boundary` is idempotent across a direction change that
reverses the normal sign.  Starting on a boundary with exiting intent:
after `cross_boundary`, a `set_dir` with a direction whose dot product
with the surface normal has the opposite sign of the old direction's
latches the reentrant intent, and the second `cross_boundary` changes
nothing but resetting the latched intent to exiting — volume id, surface
id, sense, position, direction and cached step are untouched. -/
theorem cross_boundary_idempotent (P : OrangeParams) (s : TrackState)
    (newdir : Real3) (found : Initialization) (v sid' : ℕ)
    (hexit : (Orange.cur s).boundary = BoundaryResult.exiting)
    (hfound : (P.tracker 0).cross_boundary
        ⟨(Orange.cur s).pos, (Orange.cur s).dir, (Orange.cur s).vol,
          ⟨(Orange.cur s).surf, flip_sense (Orange.cur s).sense⟩⟩ = found)
    (hvol : found.volume = some v)
    (hsid : found.surface.id = some sid')
    (hflip : decide (0 ≤ dot3
          ((P.tracker 0).normal (Orange.cur s).pos (some sid')) newdir)
        ≠ decide (0 ≤ dot3
          ((P.tracker 0).normal (Orange.cur s).pos (some sid'))
          (Orange.cur s).dir)) :
    (Orange.cur (Orange.cross_boundary P
          (Orange.set_dir P (Orange.cross_boundary P s) newdir))).vol
        = (Orange.cur (Orange.set_dir P (Orange.cross_boundary P s) newdir)).vol ∧
      (Orange.cur (Orange.cross_boundary P
          (Orange.set_dir P (Orange.cross_boundary P s) newdir))).surf
        = (Orange.cur (Orange.set_dir P (Orange.cross_boundary P s) newdir)).surf ∧
      (Orange.cur (Orange.cross_boundary P
          (Orange.set_dir P (Orange.cross_boundary P s) newdir))).sense
        = (Orange.cur (Orange.set_dir P (Orange.cross_boundary P s) newdir)).sense ∧
      (Orange.cur (Orange.cross_boundary P
          (Orange.set_dir P (Orange.cross_boundary P s) newdir))).pos
        = (Orange.cur (Orange.set_dir P (Orange.cross_boundary P s) newdir)).pos ∧
      (Orange.cur (Orange.cross_boundary P
          (Orange.set_dir P (Orange.cross_boundary P s) newdir))).dir
        = (Orange.cur (Orange.set_dir P (Orange.cross_boundary P s) newdir)).dir ∧
      (Orange.cross_boundary P
          (Orange.set_dir P (Orange.cross_boundary P s) newdir)).next_step
        = (Orange.set_dir P (Orange.cross_boundary P s) newdir).next_step ∧
      (Orange.cur (Orange.set_dir P (Orange.cross_boundary P s) newdir)).boundary
        = BoundaryResult.reentrant ∧
      (Orange.cur (Orange.cross_boundary P
          (Orange.set_dir P (Orange.cross_boundary P s) newdir))).boundary
        = BoundaryResult.exiting := by
  have hnore : ¬ ((Orange.cur s).boundary = BoundaryResult.reentrant) := by
    rw [hexit]; intro h; exact absurd h (by decide)
  -- Characterize the state after the first crossing.
  have hcur2 : Orange.cur (Orange.cross_boundary P s)
      = { Orange.cur s with
          vol := some v
          surf := some sid'
          sense := found.surface.sense
          boundary := BoundaryResult.exiting } := by
    unfold Orange.cross_boundary
    rw [if_neg hnore]
    rw [Orange.cur_updCur]
    simp only [hfound, hvol]
    rw [if_neg (by simp)]
    rw [hsid, hvol]
  have hlvl2 : (Orange.cross_boundary P s).level = s.level := by
    unfold Orange.cross_boundary
    rw [if_neg hnore]
    rfl
  -- The second operand: `set_dir` sees a boundary and flips the latch.
  have honb2 : Orange.is_on_boundary (Orange.cross_boundary P s) = true := by
    simp [Orange.is_on_boundary, Orange.surface_id, hcur2]
  have hcur3 : Orange.cur (Orange.set_dir P (Orange.cross_boundary P s) newdir)
      = { Orange.cur s with
          vol := some v
          surf := some sid'
          sense := found.surface.sense
          boundary := BoundaryResult.reentrant
          dir := newdir } := by
    unfold Orange.set_dir
    rw [if_pos honb2, if_pos (show _ by rw [hcur2]; exact hflip)]
    rw [Orange.cur_clear, Orange.cur_updCur, Orange.cur_updCur, hcur2]
    simp [flip_boundary]
  -- The second crossing takes the reentrant branch.
  have hre3 : (Orange.cur (Orange.set_dir P (Orange.cross_boundary P s) newdir)).boundary
      = BoundaryResult.reentrant := by rw [hcur3]
  have hcur4 : Orange.cur (Orange.cross_boundary P
        (Orange.set_dir P (Orange.cross_boundary P s) newdir))
      = { Orange.cur (Orange.set_dir P (Orange.cross_boundary P s) newdir) with
          boundary := BoundaryResult.exiting } := by
    rw [Orange.cross_boundary_reentrant P _ hre3, Orange.cur_updCur]
  have hns4 : (Orange.cross_boundary P
        (Orange.set_dir P (Orange.cross_boundary P s) newdir)).next_step
      = (Orange.set_dir P (Orange.cross_boundary P s) newdir).next_step := by
    rw [Orange.cross_boundary_reentrant P _ hre3]
    rfl
  refine ⟨?_, ?_, ?_, ?_, ?_, hns4, hre3, ?_⟩ <;> rw [hcur4]

/-- C4 witness: a concrete exiting track on surface 5 whose direction is
reversed against the +x normal between the two crossings. -/
theorem cross_boundary_idempotent_witness :
    (Orange.cur (Orange.cross_boundary Orange.p4
          (Orange.set_dir Orange.p4 (Orange.cross_boundary Orange.p4 Orange.s4state)
            ![-1, 0, 0]))).vol
        = (Orange.cur (Orange.set_dir Orange.p4
            (Orange.cross_boundary Orange.p4 Orange.s4state) ![-1, 0, 0])).vol ∧
      (Orange.cur (Orange.cross_boundary Orange.p4
          (Orange.set_dir Orange.p4 (Orange.cross_boundary Orange.p4 Orange.s4state)
            ![-1, 0, 0]))).surf
        = (Orange.cur (Orange.set_dir Orange.p4
            (Orange.cross_boundary Orange.p4 Orange.s4state) ![-1, 0, 0])).surf ∧
      (Orange.cur (Orange.cross_boundary Orange.p4
          (Orange.set_dir Orange.p4 (Orange.cross_boundary Orange.p4 Orange.s4state)
            ![-1, 0, 0]))).sense
        = (Orange.cur (Orange.set_dir Orange.p4
            (Orange.cross_boundary Orange.p4 Orange.s4state) ![-1, 0, 0])).sense ∧
      (Orange.cur (Orange.cross_boundary Orange.p4
          (Orange.set_dir Orange.p4 (Orange.cross_boundary Orange.p4 Orange.s4state)
            ![-1, 0, 0]))).pos
        = (Orange.cur (Orange.set_dir Orange.p4
            (Orange.cross_boundary Orange.p4 Orange.s4state) ![-1, 0, 0])).pos ∧
      (Orange.cur (Orange.cross_boundary Orange.p4
          (Orange.set_dir Orange.p4 (Orange.cross_boundary Orange.p4 Orange.s4state)
            ![-1, 0, 0]))).dir
        = (Orange.cur (Orange.set_dir Orange.p4
            (Orange.cross_boundary Orange.p4 Orange.s4state) ![-1, 0, 0])).dir ∧
      (Orange.cross_boundary Orange.p4
          (Orange.set_dir Orange.p4 (Orange.cross_boundary Orange.p4 Orange.s4state)
            ![-1, 0, 0])).next_step
        = (Orange.set_dir Orange.p4 (Orange.cross_boundary Orange.p4 Orange.s4state)
            ![-1, 0, 0]).next_step ∧
      (Orange.cur (Orange.set_dir Orange.p4
          (Orange.cross_boundary Orange.p4 Orange.s4state) ![-1, 0, 0])).boundary
        = BoundaryResult.reentrant ∧
      (Orange.cur (Orange.cross_boundary Orange.p4
          (Orange.set_dir Orange.p4 (Orange.cross_boundary Orange.p4 Orange.s4state)
            ![-1, 0, 0]))).boundary
        = BoundaryResult.exiting :=
  cross_boundary_idempotent Orange.p4 Orange.s4state ![-1, 0, 0]
    ⟨some 1, ⟨some 5, Sense.outside⟩⟩ 1 5 (by decide) (by decide) (by decide)
    (by decide) (by decide)

/-- One substep preserves the loop invariant (under the collaborator
contracts), provided the iteration was entered with a positive remaining
length. -/
theorem substepOnce_inv {G : Type} {env : FieldEnv G} (hc : FieldContracts env)
    {step : ℚ} {ls : LoopState G} (hrem : 0 < ls.remaining)
    (hinv : LoopInv env step ls) : LoopInv env step (substepOnce env step ls) := by
  obtain ⟨hr0, hd0, hds, hb⟩ := hinv
  have hs_pos : 0 < (theSubstep env ls).step := hc.advance_pos _ _ hrem
  have hs_le : (theSubstep env ls).step ≤ ls.remaining := hc.advance_le _ _ hrem
  have hlen0 : 0 ≤ (theChord env ls).length := hc.chord_nonneg _ _
  have hlen_le : (theChord env ls).length ≤ (theSubstep env ls).step :=
    hc.chord_le_step _ _ hrem
  have hdpos : 0 < (theChord env ls).length + env.delta_intersection := by
    have := hc.delta_pos
    linarith
  have hl0 : 0 ≤ (theFind env ls).1.distance := hc.find_nonneg _ _ hdpos
  have hl_le : (theFind env ls).1.distance
      ≤ (theChord env ls).length + env.delta_intersection := hc.find_le _ _ hdpos
  have honb : env.is_on_boundary (theFind env ls).2
      = env.is_on_boundary ls.geo := by
    rw [theFind, hc.find_onb, hc.set_dir_onb]
  have hmin_le : min (theSubstep env ls).step ls.remaining ≤ ls.remaining :=
    min_le_right _ _
  have hmin0 : 0 ≤ min (theSubstep env ls).step ls.remaining :=
    le_min hs_pos.le hrem.le
  simp only [substepOnce]
  split_ifs with h1 h2 h3 h4
  · -- (a) no boundary: accept the substep
    refine ⟨by simp only []; linarith, by simp only []; linarith,
      by simp only []; linarith, ?_⟩
    intro _
    exact hc.move_internal_onb _ _
  · -- (b) tangent re-entry: bisect
    refine ⟨by simp only []; linarith, by simp only []; exact hd0,
      by simp only []; linarith, ?_⟩
    intro hf
    rw [h2.1] at hf
    exact absurd hf (by decide)
  · -- (c) near-boundary acceptance
    have hminl : min (theFind env ls).1.distance ls.remaining ≤ ls.remaining :=
      min_le_right _ _
    have hminl0 : 0 ≤ min (theFind env ls).1.distance ls.remaining :=
      le_min hl0 hrem.le
    refine ⟨by simp only []; linarith, by simp only []; linarith,
      by simp only []; linarith, ?_⟩
    intro hf
    simp only [] at hf
    exact Bool.noConfusion hf
  · -- (d) close intercept
    have hmb := hc.miss_bounds ls.remaining ls.ode (theFind env ls).1.distance
      hrem h4
    have hmiss0 : 0 ≤ env.calc_miss_distance ls.ode.pos (theChord env ls).dir
        (theFind env ls).1.distance (theSubstep env ls).state.pos := hmb.1
    have hmiss1 : env.calc_miss_distance ls.ode.pos (theChord env ls).dir
        (theFind env ls).1.distance (theSubstep env ls).state.pos
        ≤ (theSubstep env ls).step := le_of_lt hmb.2
    refine ⟨by simp only []; linarith, by simp only []; linarith,
      by simp only []; linarith, ?_⟩
    intro hf
    simp only [] at hf
    exact Bool.noConfusion hf
  · -- (e) refine proportionally
    have h4' : env.is_intercept_close ls.ode.pos (theChord env ls).dir
        (theFind env ls).1.distance (theSubstep env ls).state.pos
        env.delta_intersection = false := by
      revert h4
      cases env.is_intercept_close ls.ode.pos (theChord env ls).dir
        (theFind env ls).1.distance (theSubstep env ls).state.pos
        env.delta_intersection
      · intro _; rfl
      · intro h4; exact absurd rfl h4
    have hfar : (theFind env ls).1.distance ≤ (theChord env ls).length :=
      hc.far_le_chord _ _ _ hl0 hl_le h4'
    rcases eq_or_lt_of_le hlen0 with hz | hpos
    · refine ⟨by simp only []; rw [← hz, div_zero], by simp only []; exact hd0,
        by simp only []; rw [← hz, div_zero]; linarith, ?_⟩
      intro hf
      simp only [] at hf ⊢
      rw [honb]
      exact hb hf
    · have hq : (theSubstep env ls).step * (theFind env ls).1.distance
          / (theChord env ls).length ≤ (theSubstep env ls).step := by
        rw [div_le_iff₀ hpos]
        calc (theSubstep env ls).step * (theFind env ls).1.distance
            ≤ (theSubstep env ls).step * (theChord env ls).length :=
              mul_le_mul_of_nonneg_left hfar hs_pos.le
          _ = (theSubstep env ls).step * (theChord env ls).length := rfl
      have hq0 : 0 ≤ (theSubstep env ls).step * (theFind env ls).1.distance
          / (theChord env ls).length :=
        div_nonneg (mul_nonneg hs_pos.le hl0) hpos.le
      refine ⟨by simp only []; linarith, by simp only []; exact hd0,
        by simp only []; linarith, ?_⟩
      intro hf
      simp only [] at hf ⊢
      rw [honb]
      exact hb hf

/-- The substep loop preserves the invariant and exits only when the
remaining length has dropped below the driver minimum or the substep
budget is exhausted. -/
theorem propagateLoop_inv {G : Type} {env : FieldEnv G} (hc : FieldContracts env)
    {step : ℚ} :
    ∀ (fuel : ℕ) (ls out : LoopState G),
    propagateLoop env step fuel ls = some out → 0 < ls.remaining →
    LoopInv env step ls →
    LoopInv env step out ∧
      (out.remaining < env.minimum_step ∨ out.remaining_substeps = 0) := by
  intro fuel
  induction fuel with
  | zero =>
    intro ls out h
    exact absurd h (by simp [propagateLoop])
  | succ n ih =>
    intro ls out h hrem hinv
    rw [propagateLoop] at h
    by_cases hcond : env.minimum_step ≤ (substepOnce env step ls).remaining
        ∧ 0 < (substepOnce env step ls).remaining_substeps
    · rw [if_pos hcond] at h
      exact ih _ _ h (lt_of_lt_of_le hc.min_step_pos hcond.1)
        (substepOnce_inv hc hrem hinv)
    · rw [if_neg hcond] at h
      cases h
      refine ⟨substepOnce_inv hc hrem hinv, ?_⟩
      rcases not_and_or.mp hcond with hx | hx
      · exact Or.inl (lt_of_not_le hx)
      · exact Or.inr (Nat.eq_zero_of_not_pos hx)

/-- The post-loop fixups deliver the propagator's postconditions from the
loop invariant. -/
theorem propagateFinish_post {G : Type} {env : FieldEnv G}
    (hc : FieldContracts env) {step : ℚ} {ls : LoopState G} (hstep : 0 < step)
    (hinv : LoopInv env step ls) :
    0 < (propagateFinish env step ls).result.distance ∧
      (propagateFinish env step ls).result.distance ≤ step ∧
      (propagateFinish env step ls).result.boundary
        = env.is_on_boundary (propagateFinish env step ls).geo := by
  obtain ⟨hr0, hd0, hds, hb⟩ := hinv
  simp only [propagateFinish]
  split_ifs with hd hbd hz1 hsub hz2 hz3 hz4
  · exact absurd hz1 (ne_of_gt hd)
  · refine ⟨hd, show ls.distance ≤ step by linarith, ?_⟩
    show ls.boundary = env.is_on_boundary (env.set_dir (env.move_to_boundary ls.geo) _)
    rw [hbd, hc.set_dir_onb, hc.move_to_boundary_onb]
  · exact absurd hz2 (ne_of_gt (by linarith : (0 : ℚ) < ls.distance + ls.remaining))
  · have hbf : ls.boundary = false := by
      revert hbd
      cases ls.boundary
      · intro _; rfl
      · intro hbd; exact absurd rfl hbd
    refine ⟨show (0 : ℚ) < ls.distance + ls.remaining by linarith,
      show ls.distance + ls.remaining ≤ step by linarith, ?_⟩
    show ls.boundary = env.is_on_boundary (env.set_dir ls.geo _)
    rw [hbf, hc.set_dir_onb]
    exact (hb hbf).symm
  · exact absurd hz3 (ne_of_gt hd)
  · have hbf : ls.boundary = false := by
      revert hbd
      cases ls.boundary
      · intro _; rfl
      · intro hbd; exact absurd rfl hbd
    refine ⟨hd, show ls.distance ≤ step by linarith, ?_⟩
    show ls.boundary = env.is_on_boundary (env.set_dir ls.geo _)
    rw [hbf, hc.set_dir_onb]
    exact (hb hbf).symm
  · refine ⟨lt_min hc.min_step_pos hstep, min_le_right _ _, ?_⟩
    show false = env.is_on_boundary (env.move_internal _ _)
    rw [hc.move_internal_onb]
  · exact absurd (le_antisymm (not_lt.mp hd) hd0) hz4

/-- C1: for every call to the field propagator's `operator()` with a
requested step `s > 0` that returns (the loop's iteration bound `fuel` is
not exhausted), the result satisfies `0 < distance ≤ s` and its boundary
flag equals `navigator.is_on_boundary()` at that moment. -/
theorem propagate_postconditions {G : Type} (env : FieldEnv G)
    (hc : FieldContracts env) (g : G) (ode : OdeState) (step : ℚ) (fuel : ℕ)
    (fs : FinalState G) (hstep : 0 < step)
    (hrun : propagate env step fuel g ode = some fs) :
    0 < fs.result.distance ∧ fs.result.distance ≤ step ∧
      fs.result.boundary = env.is_on_boundary fs.geo := by
  unfold propagate at hrun
  cases hL : propagateLoop env step fuel (initLoopState env step g ode) with
  | none => rw [hL] at hrun; exact absurd hrun (by simp)
  | some out =>
    rw [hL] at hrun
    simp only [Option.map_some', Option.some.injEq] at hrun
    have hinv0 : LoopInv env step (initLoopState env step g ode) := by
      refine ⟨le_of_lt hstep, le_refl 0, by simp [initLoopState], ?_⟩
      intro hf
      exact hf
    have hout := propagateLoop_inv hc fuel _ out hL hstep hinv0
    rw [← hrun]
    exact propagateFinish_post hc hstep hout.1

/-- The concrete environment satisfies all collaborator contracts. -/
theorem testEnv_contracts : FieldContracts testEnv := by
  refine ⟨?_, ?_, ?_, ?_, ?_, ?_, ?_, ?_, ?_, ?_, ?_, ?_, ?_, ?_, ?_, ?_, ?_⟩
  · show (0 : ℚ) < 1 / 10
    norm_num
  · show (0 : ℚ) < 1 / 100
    norm_num
  · intro r s h
    exact h
  · intro r s _
    exact le_refl r
  · intro a b
    exact abs_nonneg _
  · intro r s h
    show |r * e1 0 + s.pos 0 - s.pos 0| ≤ r
    have he : e1 0 = 1 := rfl
    rw [he, mul_one, add_sub_cancel_right, abs_of_pos h]
  · intro g d h
    show (0 : ℚ) ≤ d / 25
    linarith
  · intro g d h
    show d / 25 ≤ d
    linarith
  · intro g d
    rfl
  · intro g u
    rfl
  · intro g u
    rfl
  · intro g p
    rfl
  · intro g p
    rfl
  · intro g p
    rfl
  · intro g
    rfl
  · intro r s l hr _
    exact ⟨le_refl 0, hr⟩
  · intro a b l _ _ h3
    simp [testEnv] at h3

/-- C1 witness: the concrete run `propagate testEnv 1` satisfies the
postconditions. -/
theorem propagate_postconditions_witness :
    0 < testFinal.result.distance ∧ testFinal.result.distance ≤ 1 ∧
      testFinal.result.boundary = testEnv.is_on_boundary testFinal.geo :=
  propagate_postconditions testEnv testEnv_contracts testGeo0 testOde0 1 10
    testFinal (by decide) (by decide)

/-- C3: when the substep loop ends with zero accumulated distance (every
trial hit a boundary), the propagator applies the stuck-track escape: it
returns distance `min(bump_distance, requested_step)` — the bump distance
being the driver's minimum step — with `boundary = false`, after advancing
the internal ODE position linearly by that distance along the direction
just derived from the momentum and moving the navigator to that same
position. -/
theorem propagate_stuck_track_escape {G : Type} (env : FieldEnv G)
    (hc : FieldContracts env) (g : G) (ode : OdeState) (step : ℚ) (fuel : ℕ)
    (out : LoopState G)
    (hloop : propagateLoop env step fuel (initLoopState env step g ode)
      = some out)
    (hz : out.distance = 0) :
    propagate env step fuel g ode = some (propagateFinish env step out) ∧
      (propagateFinish env step out).result.distance
        = min env.minimum_step step ∧
      (propagateFinish env step out).result.boundary = false ∧
      (propagateFinish env step out).ode.pos
        = axpy (min env.minimum_step step)
            (env.normalize_direction out.ode.mom) out.ode.pos ∧
      env.geo_pos (propagateFinish env step out).geo
        = (propagateFinish env step out).ode.pos := by
  have hfin : propagateFinish env step out
      = { result := ⟨min env.minimum_step step, false⟩
          ode := { out.ode with pos := (axpy (min env.minimum_step step)
            (env.normalize_direction out.ode.mom) out.ode.pos) }
          geo := (env.move_internal
            (env.set_dir out.geo (env.normalize_direction out.ode.mom))
            (axpy (min env.minimum_step step)
              (env.normalize_direction out.ode.mom) out.ode.pos))
          last_driver_mom := out.last_driver_mom
          last_commit_mom := out.last_commit_mom } := by
    simp only [propagateFinish]
    split_ifs with h1 h2 h3 h4 <;>
      first
        | exact absurd hz (ne_of_gt h1)
        | rfl
  refine ⟨?_, ?_, ?_, ?_, ?_⟩
  · unfold propagate
    rw [hloop]
    rfl
  · rw [hfin]
  · rw [hfin]
  · rw [hfin]
  · rw [hfin]
    exact hc.move_internal_pos _ _

/-- C3 witness: the concrete run exits its loop with zero distance and is
bumped by `min(1/10, 1) = 1/10`. -/
theorem propagate_stuck_track_escape_witness :
    propagate testEnv 1 10 testGeo0 testOde0
        = some (propagateFinish testEnv 1 testLoopOut) ∧
      (propagateFinish testEnv 1 testLoopOut).result.distance
        = min testEnv.minimum_step 1 ∧
      (propagateFinish testEnv 1 testLoopOut).result.boundary = false ∧
      (propagateFinish testEnv 1 testLoopOut).ode.pos
        = axpy (min testEnv.minimum_step 1)
            (testEnv.normalize_direction testLoopOut.ode.mom)
            testLoopOut.ode.pos ∧
      testEnv.geo_pos (propagateFinish testEnv 1 testLoopOut).geo
        = (propagateFinish testEnv 1 testLoopOut).ode.pos :=
  propagate_stuck_track_escape testEnv testEnv_contracts testGeo0 testOde0 1 10
    testLoopOut (by decide) (by decide)

/-- One substep conserves the sum of the ghost commit counter and the
remaining substep budget (the budget is decremented exactly on the
committing no-hit branch). -/
theorem substepOnce_commits {G : Type} (env : FieldEnv G) (step : ℚ)
    (ls : LoopState G) (hsub : 0 < ls.remaining_substeps) :
    (substepOnce env step ls).commits
        + (substepOnce env step ls).remaining_substeps
      = ls.commits + ls.remaining_substeps := by
  simp only [substepOnce]
  split_ifs
  · simp only []
    omega
  all_goals rfl

/-- The loop conserves the commit/budget sum and exits exactly when the
remaining length drops below the driver minimum or the budget is
exhausted. -/
theorem propagateLoop_commits {G : Type} (env : FieldEnv G) (step : ℚ) :
    ∀ (fuel : ℕ) (ls out : LoopState G),
    propagateLoop env step fuel ls = some out →
    0 < ls.remaining_substeps →
    out.commits + out.remaining_substeps
        = ls.commits + ls.remaining_substeps ∧
      (out.remaining < env.minimum_step ∨ out.remaining_substeps = 0) := by
  intro fuel
  induction fuel with
  | zero =>
    intro ls out h
    exact absurd h (by simp [propagateLoop])
  | succ n ih =>
    intro ls out h hsub
    rw [propagateLoop] at h
    by_cases hcond : env.minimum_step ≤ (substepOnce env step ls).remaining
        ∧ 0 < (substepOnce env step ls).remaining_substeps
    · rw [if_pos hcond] at h
      have hres := ih _ _ h hcond.2
      rw [substepOnce_commits env step ls hsub] at hres
      exact hres
    · rw [if_neg hcond] at h
      cases h
      refine ⟨substepOnce_commits env step ls hsub, ?_⟩
      rcases not_and_or.mp hcond with hx | hx
      · exact Or.inl (lt_of_not_le hx)
      · exact Or.inr (Nat.eq_zero_of_not_pos hx)

/-- C6: the substep budget starts at `max_substeps = 128`, is decremented
exactly on each committed (no-hit) substep, and the loop exits as soon as
the remaining length falls below the driver minimum or the budget reaches
zero; hence any completed loop has committed at most 128 substeps. -/
theorem propagate_substep_budget {G : Type} (env : FieldEnv G) (step : ℚ)
    (g : G) (ode : OdeState) (fuel : ℕ) (out : LoopState G)
    (hloop : propagateLoop env step fuel (initLoopState env step g ode)
      = some out) :
    max_substeps = 128 ∧
      out.commits + out.remaining_substeps = max_substeps ∧
      out.commits ≤ 128 ∧
      (out.remaining < env.minimum_step ∨ out.remaining_substeps = 0) := by
  have h := propagateLoop_commits env step fuel _ out hloop
    (show 0 < max_substeps by decide)
  have h1 : out.commits + out.remaining_substeps = max_substeps := by
    rw [h.1]
    rfl
  refine ⟨rfl, h1, ?_, h.2⟩
  have h2 := h1
  simp only [max_substeps] at h2
  omega

/-- C6 witness: the concrete run commits no substep and exits with its
remaining length below the driver minimum. -/
theorem propagate_substep_budget_witness :
    max_substeps = 128 ∧
      testLoopOut.commits + testLoopOut.remaining_substeps = max_substeps ∧
      testLoopOut.commits ≤ 128 ∧
      (testLoopOut.remaining < testEnv.minimum_step ∨
        testLoopOut.remaining_substeps = 0) :=
  propagate_substep_budget testEnv 1 testGeo0 testOde0 10 testLoopOut (by decide)

/-- One substep preserves the momentum-provenance invariant: the branches
that touch the momentum copy it from the driver result. -/
theorem substepOnce_mom {G : Type} (env : FieldEnv G) (step : ℚ)
    (ls : LoopState G) (m0 : Real3) (h : MomInv env m0 ls) :
    MomInv env m0 (substepOnce env step ls) := by
  obtain ⟨h1, h2⟩ := h
  simp only [substepOnce]
  split_ifs
  · exact ⟨rfl, Or.inr ⟨ls.remaining, ls.ode, rfl⟩⟩
  · exact ⟨h1, h2⟩
  · exact ⟨rfl, Or.inr ⟨ls.remaining, ls.ode, rfl⟩⟩
  · exact ⟨rfl, Or.inr ⟨ls.remaining, ls.ode, rfl⟩⟩
  · exact ⟨h1, h2⟩

/-- The substep loop preserves the momentum-provenance invariant. -/
theorem propagateLoop_mom {G : Type} (env : FieldEnv G) (step : ℚ)
    (m0 : Real3) :
    ∀ (fuel : ℕ) (ls out : LoopState G),
    propagateLoop env step fuel ls = some out → MomInv env m0 ls →
    MomInv env m0 out := by
  intro fuel
  induction fuel with
  | zero =>
    intro ls out h
    exact absurd h (by simp [propagateLoop])
  | succ n ih =>
    intro ls out h hm
    rw [propagateLoop] at h
    by_cases hcond : env.minimum_step ≤ (substepOnce env step ls).remaining
        ∧ 0 < (substepOnce env step ls).remaining_substeps
    · rw [if_pos hcond] at h
      exact ih _ _ h (substepOnce_mom env step ls m0 hm)
    · rw [if_neg hcond] at h
      cases h
      exact substepOnce_mom env step ls m0 hm

/-- The post-loop fixups never touch the momentum or the commit ghost. -/
theorem propagateFinish_mom {G : Type} (env : FieldEnv G) (step : ℚ)
    (ls : LoopState G) :
    (propagateFinish env step ls).ode.mom = ls.ode.mom ∧
      (propagateFinish env step ls).last_commit_mom = ls.last_commit_mom := by
  simp only [propagateFinish]
  split_ifs <;> exact ⟨rfl, rfl⟩

/-- After the post-loop fixups the navigator's direction is the normalized
final momentum (the final `set_dir`, preserved by the stuck-track
`move_internal`). -/
theorem propagateFinish_dir {G : Type} {env : FieldEnv G}
    (hc : FieldContracts env) (step : ℚ) (ls : LoopState G) :
    env.geo_dir (propagateFinish env step ls).geo
      = env.normalize_direction (propagateFinish env step ls).ode.mom := by
  simp only [propagateFinish]
  split_ifs <;>
    first
      | rw [hc.set_dir_dir]
      | rw [hc.move_internal_dir, hc.set_dir_dir]

/-- C5 (amended): during `propagate` the internal momentum is only ever
assigned from driver outputs — after the call it equals the momentum of
the last committed substep (the no-hit, near-boundary and close-intercept
branches), or the initial momentum when no substep committed; no navigator
operation modifies it, and the direction set on the navigator at the end
is that momentum normalized. -/
theorem propagate_momentum_provenance {G : Type} (env : FieldEnv G)
    (hc : FieldContracts env) (g : G) (ode : OdeState) (step : ℚ) (fuel : ℕ)
    (fs : FinalState G)
    (hrun : propagate env step fuel g ode = some fs) :
    fs.ode.mom = fs.last_commit_mom ∧
      (fs.last_commit_mom = ode.mom ∨
        ∃ r s, fs.last_commit_mom = (env.advance r s).state.mom) ∧
      env.geo_dir fs.geo = env.normalize_direction fs.ode.mom := by
  unfold propagate at hrun
  cases hL : propagateLoop env step fuel (initLoopState env step g ode) with
  | none =>
    rw [hL] at hrun
    exact absurd hrun (by simp)
  | some out =>
    rw [hL] at hrun
    simp only [Option.map_some', Option.some.injEq] at hrun
    have hm0 : MomInv env ode.mom (initLoopState env step g ode) :=
      ⟨rfl, Or.inl rfl⟩
    obtain ⟨hmm, hprov⟩ := propagateLoop_mom env step ode.mom fuel _ out hL hm0
    obtain ⟨hfm, hfc⟩ := propagateFinish_mom env step out
    rw [← hrun]
    refine ⟨?_, ?_, propagateFinish_dir hc step out⟩
    · rw [hfm, hfc, hmm]
    · rw [hfc]
      exact hprov

/-- C5 counterexample: in the concrete run every driver trial is rejected
by the tangent-re-entry branch, so the momentum after `propagate` is the
initial one and differs — also in magnitude — from the momentum of the
last driver `advance` result.  The claim "the momentum magnitude after
propagate equals the magnitude of the last driver-returned momentum" is
therefore false as stated. -/
theorem propagate_last_driver_mom_counterexample :
    propagate testEnv 1 10 testGeo0 testOde0 = some testFinal ∧
      testFinal.last_driver_mom = some ![(1 : ℚ)/8, 0, 0] ∧
      testFinal.ode.mom = ![(2 : ℚ), 0, 0] ∧
      momSq testFinal.ode.mom ≠ momSq ![(1 : ℚ)/8, 0, 0] :=
  ⟨by decide, by decide, by decide, by decide⟩

/-- C5 witness: the amended statement on the concrete run. -/
theorem propagate_momentum_provenance_witness :
    testFinal.ode.mom = testFinal.last_commit_mom ∧
      (testFinal.last_commit_mom = testOde0.mom ∨
        ∃ r s, testFinal.last_commit_mom = (testEnv.advance r s).state.mom) ∧
      testEnv.geo_dir testFinal.geo
        = testEnv.normalize_direction testFinal.ode.mom :=
  propagate_momentum_provenance testEnv testEnv_contracts testGeo0 testOde0 1 10
    testFinal (by decide)

namespace Orange

/-- A universe chain from level `k` reaches exactly the current level. -/
theorem chainFrom_length (P : OrangeParams) (s : TrackState) :
    ∀ (us : List ℕ) (k : ℕ), ChainFrom P s k us → us.length + k = s.level + 1 := by
  intro us
  induction us with
  | nil =>
    intro k h
    exact h.elim
  | cons u rest ih =>
    intro k h
    cases rest with
    | nil =>
      obtain ⟨hk, _⟩ := h
      simp only [List.length_cons, List.length_nil, hk]
      omega
    | cons u' rest' =>
      obtain ⟨_, _, hchain⟩ := h
      have := ih (k + 1) hchain
      simp only [List.length_cons] at this ⊢
      omega

/-- On a well-formed chain, the `find_next_step_impl` loop is the list
fold of its body over the chain. -/
theorem fnsLoop_chain (P : OrangeParams) (s : TrackState) (max : Dist) :
    ∀ (us : List ℕ) (k : ℕ) (acc : FnsAcc),
    ChainFrom P s k us →
    fnsLoop P s max us.length (us.headD 0) k acc
      = some (chainFold P s max us k acc) := by
  intro us
  induction us with
  | nil =>
    intro k acc h
    exact h.elim
  | cons u rest ih =>
    intro k acc h
    cases rest with
    | nil =>
      obtain ⟨hk, hu⟩ := h
      simp only [List.length_cons, List.length_nil, List.headD_cons, fnsLoop]
      rw [if_pos hu.symm]
      rfl
    | cons u' rest' =>
      obtain ⟨hne, hdtr, hchain⟩ := h
      have hih := ih (k + 1) (accUpdate P s max u k acc) hchain
      simp only [List.headD_cons] at hih
      simp only [List.length_cons, List.headD_cons, fnsLoop]
      rw [if_neg (fun hx => hne hx), hdtr]
      exact hih

/-- The accumulator update takes the `dmin` of the old minimum and the
tracker's distance. -/
theorem accUpdate_min (P : OrangeParams) (s : TrackState) (max : Dist)
    (u k : ℕ) (acc : FnsAcc) :
    (accUpdate P s max u k acc).min_step
      = dmin acc.min_step
          ((P.tracker u).intersect (make_local_state P s k) max).distance := by
  simp only [accUpdate, dmin]
  split_ifs <;> rfl

/-- The fold's minimum distance is the `dmin`-fold of the chain's tracker
distances. -/
theorem chainFold_min (P : OrangeParams) (s : TrackState) (max : Dist) :
    ∀ (us : List ℕ) (k : ℕ) (acc : FnsAcc),
    (chainFold P s max us k acc).min_step
      = (chainDists P s max us k).foldl dmin acc.min_step := by
  intro us
  induction us with
  | nil =>
    intro k acc
    rfl
  | cons u rest ih =>
    intro k acc
    simp only [chainFold, chainDists, List.foldl_cons]
    rw [ih (k + 1) (accUpdate P s max u k acc), accUpdate_min]

end Orange

/-- `dle` is reflexive. -/
theorem dle_refl (a : Dist) : dle a a = true := by
  cases a <;> simp [dle, dlt]

/-- `dmin` is a lower bound of its first argument. -/
theorem dle_dmin_left (a b : Dist) : dle (dmin a b) a = true := by
  cases a with
  | none => cases b <;> simp [dmin, dle, dlt]
  | some p =>
    cases b with
    | none => simp [dmin, dle, dlt]
    | some q =>
      simp only [dmin, dle, dlt]
      split_ifs with h
      · simp only [decide_eq_true_eq] at h
        simp only [Bool.not_eq_true', decide_eq_false_iff_not, not_lt]
        linarith
      · simp

/-- `dle` is transitive. -/
theorem dle_trans (a b c : Dist) :
    dle a b = true → dle b c = true → dle a c = true := by
  cases a <;> cases b <;> cases c <;> simp [dle, dlt]
  all_goals intro h1 h2
  all_goals linarith

/-- Folding `dmin` never exceeds the seed. -/
theorem dle_foldl_dmin : ∀ (l : List Dist) (a : Dist),
    dle (l.foldl dmin a) a = true := by
  intro l
  induction l with
  | nil =>
    intro a
    exact dle_refl a
  | cons x xs ih =>
    intro a
    simp only [List.foldl_cons]
    exact dle_trans _ _ _ (ih (dmin a x)) (dle_dmin_left a x)

namespace Orange

/-- Provenance of the fold result: either no tracker improved on the seed
accumulator, or some chain entry `l` holds the winning universe, surface
and distance. -/
theorem chainFold_surface (P : OrangeParams) (s : TrackState) (max : Dist) :
    ∀ (us : List ℕ) (k : ℕ) (acc : FnsAcc),
    chainFold P s max us k acc = acc ∨
    ∃ l, l < us.length ∧
      (chainFold P s max us k acc).min_uid = some (us.getD l 0) ∧
      (chainFold P s max us k acc).min_surface
        = ((P.tracker (us.getD l 0)).intersect
            (make_local_state P s (k + l)) max).surface ∧
      (chainFold P s max us k acc).min_step
        = ((P.tracker (us.getD l 0)).intersect
            (make_local_state P s (k + l)) max).distance := by
  intro us
  induction us with
  | nil =>
    intro k acc
    exact Or.inl rfl
  | cons u rest ih =>
    intro k acc
    have hstep : chainFold P s max (u :: rest) k acc
        = chainFold P s max rest (k + 1) (accUpdate P s max u k acc) := rfl
    by_cases h : dlt ((P.tracker u).intersect
        (make_local_state P s k) max).distance acc.min_step = true
    · have hacc : accUpdate P s max u k acc
          = ⟨((P.tracker u).intersect (make_local_state P s k) max).distance,
             ((P.tracker u).intersect (make_local_state P s k) max).surface,
             some u⟩ := by
        simp only [accUpdate]
        rw [if_pos h]
      rcases ih (k + 1) (accUpdate P s max u k acc) with heq | ⟨l, hl, h1, h2, h3⟩
      · refine Or.inr ⟨0, by simp, ?_, ?_, ?_⟩ <;>
          (rw [hstep, heq, hacc]; simp [List.getD])
      · refine Or.inr ⟨l + 1, by simp only [List.length_cons]; omega, ?_, ?_, ?_⟩
        · rw [hstep, h1]
          simp [List.getD]
        · rw [hstep, h2]
          have hx : (k + 1) + l = k + (l + 1) := by omega
          rw [hx]
          simp [List.getD]
        · rw [hstep, h3]
          have hx : (k + 1) + l = k + (l + 1) := by omega
          rw [hx]
          simp [List.getD]
    · have hacc : accUpdate P s max u k acc = acc := by
        simp only [accUpdate]
        rw [if_neg h]
      rcases ih (k + 1) (accUpdate P s max u k acc) with heq | ⟨l, hl, h1, h2, h3⟩
      · exact Or.inl (by rw [hstep, heq, hacc])
      · refine Or.inr ⟨l + 1, by simp only [List.length_cons]; omega, ?_, ?_, ?_⟩
        · rw [hstep, h1]
          simp [List.getD]
        · rw [hstep, h2]
          have hx : (k + 1) + l = k + (l + 1) := by omega
          rw [hx]
          simp [List.getD]
        · rw [hstep, h3]
          have hx : (k + 1) + l = k + (l + 1) := by omega
          rw [hx]
          simp [List.getD]

/-- Freshly cleared state: clearing is the identity when the cached step
is already zero. -/
theorem clear_next_step_fresh (s : TrackState) (h : s.next_step = some 0) :
    clear_next_step s = s := by
  cases s
  simp_all [clear_next_step]

end Orange

/-- C2: from a fresh state (no reentrant latch, no cached step), the
distance returned by `find_next_step(max_step)` is the minimum, over the
universes on the chain from the root down to the universe containing the
track, of the trackers' intersection distances, capped at — and never
exceeding — `max_step`; when a tracker wins, its local surface id is
converted to a global surface id via the unit indexer before being cached
as the next surface. -/
theorem find_next_step_max_chain_min (P : OrangeParams) (s : TrackState)
    (max_step : ℚ) (us : List ℕ)
    (hchain : Orange.ChainFrom P s 0 us)
    (htop : us.headD 0 = P.top_universe)
    (hre : ¬ (Orange.cur s).boundary = BoundaryResult.reentrant)
    (hfresh : s.next_step = some 0)
    (hsurf : s.next_surface.id = none)
    (hmax : 0 < max_step) :
    ∃ s', Orange.find_next_step_max P s max_step
        = some (⟨s'.next_step, s'.next_surface.valid⟩, s') ∧
      s'.next_step
        = (Orange.chainDists P s (some max_step) us 0).foldl dmin
            (some max_step) ∧
      dle s'.next_step (some max_step) = true ∧
      (s'.next_surface.id = none ∨
        ∃ l, l < us.length ∧
          ∃ lid, ((P.tracker (us.getD l 0)).intersect
              (Orange.make_local_state P s l) (some max_step)).surface.id
                = some lid ∧
            s'.next_surface
              = ⟨some (P.global_surface (us.getD l 0) lid),
                 ((P.tracker (us.getD l 0)).intersect
                   (Orange.make_local_state P s l) (some max_step)).surface.sense⟩ ∧
            s'.next_step
              = ((P.tracker (us.getD l 0)).intersect
                  (Orange.make_local_state P s l) (some max_step)).distance) := by
  have hlen : us.length = s.level + 1 := by
    have := Orange.chainFrom_length P s us 0 hchain
    omega
  set F := Orange.chainFold P s (some max_step) us 0
    ⟨some max_step, noSurface, none⟩ with hFdef
  have himpl : Orange.find_next_step_impl P s (some max_step)
      = some { s with
          next_step := F.min_step
          next_surface :=
            match F.min_uid with
            | some uu => ⟨F.min_surface.id.map (P.global_surface uu),
                F.min_surface.sense⟩
            | none => F.min_surface } := by
    unfold Orange.find_next_step_impl
    have hloop := Orange.fnsLoop_chain P s (some max_step) us 0
      ⟨some max_step, noSurface, none⟩ hchain
    rw [htop] at hloop
    rw [show s.level + 1 = us.length from hlen.symm, hloop]
  refine ⟨{ s with
      next_step := F.min_step
      next_surface :=
        match F.min_uid with
        | some uu => ⟨F.min_surface.id.map (P.global_surface uu),
            F.min_surface.sense⟩
        | none => F.min_surface }, ?_, ?_, ?_, ?_⟩
  · unfold Orange.find_next_step_max
    rw [if_neg hre]
    rw [if_neg (show ¬ dlt (some max_step) s.next_step = true by
      rw [hfresh]
      simp only [dlt, decide_eq_true_eq]
      intro hx
      exact absurd hx (by simpa using not_lt.mpr hmax.le))]
    rw [if_pos ⟨show s.next_surface.valid = false by
        simp [OnSurface.valid, hsurf],
      show dlt s.next_step (some max_step) = true by
        rw [hfresh]
        simp only [dlt, decide_eq_true_eq]
        exact hmax⟩]
    rw [Orange.clear_next_step_fresh s hfresh]
    simp only []
    rw [if_pos (show Orange.has_next_step s = false by
      simp [Orange.has_next_step, hfresh])]
    rw [himpl]
  · exact Orange.chainFold_min P s (some max_step) us 0 _
  · rw [hFdef, Orange.chainFold_min]
    exact dle_foldl_dmin _ _
  · rcases Orange.chainFold_surface P s (some max_step) us 0
      ⟨some max_step, noSurface, none⟩ with heq | ⟨l, hl, h1, h2, h3⟩
    · refine Or.inl ?_
      rw [hFdef, heq]
      rfl
    · simp only [Nat.zero_add] at h2 h3
      rw [← hFdef] at h1 h2 h3
      rcases hid : ((P.tracker (us.getD l 0)).intersect
          (Orange.make_local_state P s l) (some max_step)).surface.id
        with _ | lid
      · refine Or.inl ?_
        show (match F.min_uid with
          | some uu => (⟨F.min_surface.id.map (P.global_surface uu),
              F.min_surface.sense⟩ : OnSurface)
          | none => F.min_surface).id = none
        rw [h1, h2, hid]
        rfl
      · refine Or.inr ⟨l, hl, lid, hid, ?_, ?_⟩
        · show (match F.min_uid with
            | some uu => (⟨F.min_surface.id.map (P.global_surface uu),
                F.min_surface.sense⟩ : OnSurface)
            | none => F.min_surface)
              = ⟨some (P.global_surface (us.getD l 0) lid), _⟩
          rw [h1, h2, hid]
          rfl
        · exact h3

/-- C2 witness: the two-universe chain `[7, 9]` whose trackers report
distances 5 and 2: the returned distance is 2 (the minimum, capped at 4),
and the winning local surface 13 of universe 9 is cached as global
surface 913. -/
theorem find_next_step_max_chain_min_witness :
    ∃ s', Orange.find_next_step_max Orange.p2 Orange.s2state 4
        = some (⟨s'.next_step, s'.next_surface.valid⟩, s') ∧
      s'.next_step
        = (Orange.chainDists Orange.p2 Orange.s2state (some 4) [7, 9] 0).foldl
            dmin (some 4) ∧
      dle s'.next_step (some 4) = true ∧
      (s'.next_surface.id = none ∨
        ∃ l, l < [7, 9].length ∧
          ∃ lid, ((Orange.p2.tracker ([7, 9].getD l 0)).intersect
              (Orange.make_local_state Orange.p2 Orange.s2state l)
              (some 4)).surface.id = some lid ∧
            s'.next_surface
              = ⟨some (Orange.p2.global_surface ([7, 9].getD l 0) lid),
                 ((Orange.p2.tracker ([7, 9].getD l 0)).intersect
                   (Orange.make_local_state Orange.p2 Orange.s2state l)
                   (some 4)).surface.sense⟩ ∧
            s'.next_step
              = ((Orange.p2.tracker ([7, 9].getD l 0)).intersect
                  (Orange.make_local_state Orange.p2 Orange.s2state l)
                  (some 4)).distance) :=
  find_next_step_max_chain_min Orange.p2 Orange.s2state 4 [7, 9]
    ⟨by decide, by decide, by decide, by decide⟩ (by decide) (by decide)
    (by decide) (by decide) (by decide)

/-- A component of an exact unit vector has absolute value at most one
(helper stated on raw rationals). -/
theorem abs_le_one_of_unit (x y z : ℚ) (h : x * x + y * y + z * z = 1) :
    |x| ≤ 1 := by
  rw [abs_le]
  constructor <;>
    nlinarith [mul_self_nonneg y, mul_self_nonneg z, mul_self_nonneg (x - 1),
      mul_self_nonneg (x + 1)]

/-- Each component of an exactly-unit direction is at most 1 in absolute
value. -/
theorem unit_component_abs_le (dir : Real3) (h : dot3 dir dir = 1)
    (a : Fin 3) : |dir a| ≤ 1 := by
  simp only [dot3] at h
  fin_cases a
  · exact abs_le_one_of_unit (dir 0) (dir 1) (dir 2) h
  · exact abs_le_one_of_unit (dir 1) (dir 0) (dir 2) (by linarith)
  · exact abs_le_one_of_unit (dir 2) (dir 0) (dir 1) (by linarith)

/-- The rect-array safety is bounded by the distance to each of the six
cell planes. -/
theorem safety_le_plane (r : RectArray.Rec) (pos : Real3) (vol : ℕ)
    (a : Fin 3) (i : ℕ) (hi : i = 0 ∨ i = 1) :
    RectArray.safety r pos vol
      ≤ |pos a - RectArray.gridAt r a (RectArray.volCoords r vol a + i)| := by
  unfold RectArray.safety
  fin_cases a <;> rcases hi with rfl | rfl <;> simp [min_le_iff]

/-- The distance along a non-stationary unit-bounded direction to a cell
plane dominates the safety. -/
theorem plane_dist_le (r : RectArray.Rec) (pos dir : Real3) (vol : ℕ)
    (a : Fin 3) (idx : ℕ) (hidx : idx = 0 ∨ idx = 1)
    (hdir : |dir a| ≤ 1) (h0 : dir a ≠ 0)
    (hdq : 0 < (RectArray.gridAt r a (RectArray.volCoords r vol a + idx)
      - pos a) / dir a) :
    RectArray.safety r pos vol
      ≤ (RectArray.gridAt r a (RectArray.volCoords r vol a + idx) - pos a)
          / dir a := by
  set t := RectArray.gridAt r a (RectArray.volCoords r vol a + idx) with ht
  have hmul : ((t - pos a) / dir a) * dir a = t - pos a := div_mul_cancel₀ _ h0
  have habs : |pos a - t| ≤ (t - pos a) / dir a := by
    have h1 : |t - pos a| = |(t - pos a) / dir a| * |dir a| := by
      rw [← abs_mul, hmul]
    rw [abs_sub_comm, h1, abs_of_pos hdq]
    calc (t - pos a) / dir a * |dir a|
        ≤ (t - pos a) / dir a * 1 := mul_le_mul_of_nonneg_left hdir hdq.le
      _ = (t - pos a) / dir a := mul_one _
  exact le_trans (safety_le_plane r pos vol a idx hidx) habs

/-- One axis step of the rect-array intersection preserves the property
that every recorded distance dominates the safety. -/
theorem axisStep_safety (r : RectArray.Rec) (pos dir : Real3) (vol : ℕ)
    (a : Fin 3) (acc : Intersection) (hdir : |dir a| ≤ 1)
    (hacc : ∀ q, acc.distance = some q → RectArray.safety r pos vol ≤ q) :
    ∀ q, (RectArray.axisStep r (RectArray.volCoords r vol) pos dir a
        acc).distance = some q →
      RectArray.safety r pos vol ≤ q := by
  intro q hq
  simp only [RectArray.axisStep] at hq
  by_cases h0 : dir a = 0
  · rw [if_pos h0] at hq
    exact hacc q hq
  · rw [if_neg h0] at hq
    by_cases hcond : 0 < (RectArray.gridAt r a (RectArray.volCoords r vol a
          + (if 0 < dir a then 1 else 0)) - pos a) / dir a
        ∧ dlt (some ((RectArray.gridAt r a (RectArray.volCoords r vol a
          + (if 0 < dir a then 1 else 0)) - pos a) / dir a)) acc.distance
          = true
    · rw [if_pos hcond] at hq
      have hq' : (RectArray.gridAt r a (RectArray.volCoords r vol a
          + (if 0 < dir a then 1 else 0)) - pos a) / dir a = q :=
        Option.some.inj hq
      rw [← hq']
      exact plane_dist_le r pos dir vol a (if 0 < dir a then 1 else 0)
        (by split_ifs <;> simp) hdir h0 hcond.1
    · rw [if_neg hcond] at hq
      exact hacc q hq

/-- C9: for any position inside a rect-array cell and any exactly-unit
direction, the safety distance never exceeds the distance returned by
`intersect` from that position along that direction. -/
theorem rect_safety_le_intersect (r : RectArray.Rec) (pos dir : Real3)
    (vol : ℕ) (surf : OnSurface) (hunit : dot3 dir dir = 1) :
    ∀ q, (RectArray.intersect r ⟨pos, dir, some vol, surf⟩).distance
        = some q →
      RectArray.safety r pos vol ≤ q := by
  intro q hq
  have himpl : (RectArray.intersect_impl r ⟨pos, dir, some vol, surf⟩).distance
      = some q := by
    simp only [RectArray.intersect] at hq
    split_ifs at hq with h
    exact hq
  have hbase : ∀ q', (⟨none, noSurface⟩ : Intersection).distance = some q' →
      RectArray.safety r pos vol ≤ q' := by
    intro q' hq'
    exact absurd hq' (by simp)
  have h0 := axisStep_safety r pos dir vol 0 ⟨none, noSurface⟩
    (unit_component_abs_le dir hunit 0) hbase
  have h1 := axisStep_safety r pos dir vol 1 _
    (unit_component_abs_le dir hunit 1) h0
  have h2 := axisStep_safety r pos dir vol 2 _
    (unit_component_abs_le dir hunit 2) h1
  exact h2 q himpl

/-- C9 witness: in the concrete grid, from the cell center along
`(3/5, 4/5, 0)` the intersection distance is 5/8 and the safety is 1/2. -/
theorem rect_safety_le_intersect_witness :
    RectArray.safety RectArray.r8 ![1/2, 1/2, 1/2] 0 ≤ 5/8 :=
  rect_safety_le_intersect RectArray.r8 ![1/2, 1/2, 1/2] ![3/5, 4/5, 0] 0
    noSurface (by decide) (5/8) (by decide)

namespace RectArray

/-- On a strictly increasing grid whose front does not exceed `p`,
`gridFind` lands exactly on `p` whenever `p` is a grid point. -/
theorem gridFind_eq_of_mem :
    ∀ (g : List ℚ) (p : ℚ), List.Chain' (· < ·) g → frontD g ≤ p → p ∈ g →
      g.getD (gridFind g p) 0 = p := by
  intro g
  induction g with
  | nil =>
    intro p _ _ hm
    exact absurd hm (List.not_mem_nil p)
  | cons x rest ih =>
    intro p hs hf hm
    cases rest with
    | nil =>
      have hx : p = x := by
        simpa using hm
      simp [gridFind, hx]
    | cons b rest' =>
      have hxb : x < b := (List.chain'_cons.mp hs).1
      by_cases hpb : p < b
      · have hx : p = x := by
          rcases List.mem_cons.mp hm with h | h
          · exact h
          · exfalso
            have hble : b ≤ p := by
              rcases List.mem_cons.mp h with h' | h'
              · exact le_of_eq h'.symm
              · have hall := List.pairwise_cons.mp
                  ((List.chain'_iff_pairwise).mp (List.chain'_cons.mp hs).2)
                exact (hall.1 p h').le
            linarith
        subst hx
        simp [gridFind, hxb]
      · have hble : b ≤ p := not_lt.mp hpb
        have hm' : p ∈ b :: rest' := by
          rcases List.mem_cons.mp hm with h | h
          · exfalso
            rw [h] at hble
            linarith
          · exact h
        have hrec := ih p (List.chain'_cons.mp hs).2
          (by simpa [frontD] using hble) hm'
        simp only [gridFind, if_neg hpb]
        rw [List.getD_cons_succ]
        exact hrec

/-- On a strictly increasing grid, a value within the extent that is not a
grid point falls strictly between the plane `gridFind` returns and the
next one. -/
theorem gridFind_between :
    ∀ (g : List ℚ) (p : ℚ), List.Chain' (· < ·) g → frontD g ≤ p →
      p ≤ backD g → p ∉ g → 2 ≤ g.length →
      g.getD (gridFind g p) 0 < p ∧ p < g.getD (gridFind g p + 1) 0 ∧
        gridFind g p + 1 < g.length := by
  intro g
  induction g with
  | nil =>
    intro p _ _ _ _ hlen
    exact absurd hlen (by simp)
  | cons x rest ih =>
    intro p hs hf hb hm hlen
    cases rest with
    | nil =>
      exact absurd hlen (by simp)
    | cons b rest' =>
      have hxb : x < b := (List.chain'_cons.mp hs).1
      have hxp : x < p := by
        have hxf : x ≤ p := by simpa [frontD] using hf
        rcases lt_or_eq_of_le hxf with h | h
        · exact h
        · exact absurd (h ▸ List.mem_cons_self x (b :: rest')) hm
      by_cases hpb : p < b
      · refine ⟨by simpa [gridFind, hpb] using hxp, ?_, ?_⟩
        · simp [gridFind, hpb, hpb]
        · simp [gridFind, hpb]
      · have hble : b ≤ p := not_lt.mp hpb
        have hm' : p ∉ b :: rest' := fun hx => hm (List.mem_cons_of_mem x hx)
        cases rest' with
        | nil =>
          exfalso
          have hpb' : p ≤ b := by simpa [backD] using hb
          exact hm (by simp [le_antisymm hpb' hble])
        | cons c rest'' =>
          have hrec := ih p (List.chain'_cons.mp hs).2
            (by simpa [frontD] using hble)
            (by simpa [backD] using hb) hm' (by simp)
          refine ⟨?_, ?_, ?_⟩
          · simp only [gridFind, if_neg hpb]
            rw [List.getD_cons_succ]
            exact hrec.1
          · simp only [gridFind, if_neg hpb]
            rw [List.getD_cons_succ]
            exact hrec.2.1
          · have h3 := hrec.2.2
            simp only [List.length_cons] at h3 ⊢
            rw [gridFind, if_neg hpb]
            omega

/-- On a sorted grid, `axisCell` is `none` exactly on out-of-extent or
on-plane positions. -/
theorem axisCell_none_iff (g : List ℚ) (p : ℚ)
    (hs : List.Chain' (· < ·) g) (hlen : 2 ≤ g.length) :
    axisCell g p = none ↔ (p < frontD g ∨ backD g < p ∨ p ∈ g) := by
  unfold axisCell
  by_cases hout : p < frontD g ∨ backD g < p
  · rw [if_pos hout]
    simp only [true_iff]
    rcases hout with h | h
    · exact Or.inl h
    · exact Or.inr (Or.inl h)
  · rw [if_neg hout]
    simp only []
    push_neg at hout
    by_cases hmem : p ∈ g
    · rw [if_pos (gridFind_eq_of_mem g p hs hout.1 hmem)]
      simp [hmem]
    · have hbet := gridFind_between g p hs hout.1 hout.2 hmem hlen
      rw [if_neg (ne_of_lt hbet.1)]
      constructor
      · intro h
        exact absurd h (by simp)
      · intro h
        rcases h with h | h | h
        · exact absurd h (not_lt.mpr hout.1)
        · exact absurd h (not_lt.mpr hout.2)
        · exact absurd h hmem

/-- On a sorted grid, an interior off-plane position gets the cell index
of the open interval containing it. -/
theorem axisCell_some (g : List ℚ) (p : ℚ) (hs : List.Chain' (· < ·) g)
    (hlen : 2 ≤ g.length) (hf : frontD g ≤ p) (hb : p ≤ backD g)
    (hm : p ∉ g) :
    axisCell g p = some (gridFind g p) ∧
      g.getD (gridFind g p) 0 < p ∧ p < g.getD (gridFind g p + 1) 0 ∧
      gridFind g p + 1 < g.length := by
  have hbet := gridFind_between g p hs hf hb hm hlen
  refine ⟨?_, hbet⟩
  unfold axisCell
  rw [if_neg (not_or.mpr ⟨not_lt.mpr hf, not_lt.mpr hb⟩)]
  simp only []
  rw [if_neg (ne_of_lt hbet.1)]

end RectArray

/-- C8: `RectArrayTracker::initialize` returns the configured background
volume (with no surface) exactly when, on some axis, the position is below
the first grid point, above the last one, or exactly on a grid plane; any
other position yields the non-background cell volume determined by the
per-axis cell coordinates containing it. -/
theorem rect_initialize_background (r : RectArray.Rec) (pos : Real3)
    (hs : ∀ a, List.Chain' (· < ·) (r.grids a))
    (hlen : ∀ a, 2 ≤ (r.grids a).length)
    (hbg : ∀ i, i < RectArray.dims r 0 → ∀ j, j < RectArray.dims r 1 →
      ∀ k, k < RectArray.dims r 2 →
      r.background ≠ some (RectArray.volIndex r ![i, j, k])) :
    ((∃ a : Fin 3, pos a < RectArray.frontD (r.grids a) ∨
        RectArray.backD (r.grids a) < pos a ∨ pos a ∈ r.grids a) →
      RectArray.rectInit r pos = ⟨r.background, noSurface⟩) ∧
    (¬ (∃ a : Fin 3, pos a < RectArray.frontD (r.grids a) ∨
        RectArray.backD (r.grids a) < pos a ∨ pos a ∈ r.grids a) →
      ∃ c : Fin 3 → ℕ,
        (∀ a, c a < RectArray.dims r a ∧
          RectArray.gridAt r a (c a) < pos a ∧
          pos a < RectArray.gridAt r a (c a + 1)) ∧
        RectArray.rectInit r pos
          = ⟨some (RectArray.volIndex r c), noSurface⟩ ∧
        some (RectArray.volIndex r c) ≠ r.background) := by
  constructor
  · rintro ⟨a, ha⟩
    have ha3 : RectArray.axisCell (r.grids 0) (pos 0) = none ∨
        RectArray.axisCell (r.grids 1) (pos 1) = none ∨
        RectArray.axisCell (r.grids 2) (pos 2) = none := by
      rcases a with ⟨av, hav⟩
      interval_cases av
      · exact Or.inl
          ((RectArray.axisCell_none_iff _ _ (hs 0) (hlen 0)).mpr ha)
      · exact Or.inr (Or.inl
          ((RectArray.axisCell_none_iff _ _ (hs 1) (hlen 1)).mpr ha))
      · exact Or.inr (Or.inr
          ((RectArray.axisCell_none_iff _ _ (hs 2) (hlen 2)).mpr ha))
    unfold RectArray.rectInit
    rcases ha3 with h | h | h
    · rw [h]
    · rw [h]
      cases RectArray.axisCell (r.grids 0) (pos 0) <;> rfl
    · rw [h]
      cases RectArray.axisCell (r.grids 0) (pos 0) <;>
        first
          | rfl
          | (cases RectArray.axisCell (r.grids 1) (pos 1) <;> rfl)
  · intro hno
    push_neg at hno
    have hx0 := RectArray.axisCell_some (r.grids 0) (pos 0) (hs 0) (hlen 0)
      (hno 0).1 (hno 0).2.1 (hno 0).2.2
    have hx1 := RectArray.axisCell_some (r.grids 1) (pos 1) (hs 1) (hlen 1)
      (hno 1).1 (hno 1).2.1 (hno 1).2.2
    have hx2 := RectArray.axisCell_some (r.grids 2) (pos 2) (hs 2) (hlen 2)
      (hno 2).1 (hno 2).2.1 (hno 2).2.2
    refine ⟨fun a => RectArray.gridFind (r.grids a) (pos a), ?_, ?_, ?_⟩
    · intro a
      rcases a with ⟨av, hav⟩
      interval_cases av
      · refine ⟨?_, hx0.2.1, hx0.2.2.1⟩
        show RectArray.gridFind (r.grids 0) (pos 0) < RectArray.dims r 0
        have := hx0.2.2.2
        unfold RectArray.dims
        omega
      · refine ⟨?_, hx1.2.1, hx1.2.2.1⟩
        show RectArray.gridFind (r.grids 1) (pos 1) < RectArray.dims r 1
        have := hx1.2.2.2
        unfold RectArray.dims
        omega
      · refine ⟨?_, hx2.2.1, hx2.2.2.1⟩
        show RectArray.gridFind (r.grids 2) (pos 2) < RectArray.dims r 2
        have := hx2.2.2.2
        unfold RectArray.dims
        omega
    · unfold RectArray.rectInit
      rw [hx0.1, hx1.1, hx2.1]
      rfl
    · intro heq
      have hb0 : RectArray.gridFind (r.grids 0) (pos 0) < RectArray.dims r 0 := by
        have := hx0.2.2.2
        unfold RectArray.dims
        omega
      have hb1 : RectArray.gridFind (r.grids 1) (pos 1) < RectArray.dims r 1 := by
        have := hx1.2.2.2
        unfold RectArray.dims
        omega
      have hb2 : RectArray.gridFind (r.grids 2) (pos 2) < RectArray.dims r 2 := by
        have := hx2.2.2.2
        unfold RectArray.dims
        omega
      exact hbg _ hb0 _ hb1 _ hb2 heq.symm

/-- Witness for C8: in the concrete fixture the interior point
(1/2, 1/2, 1/2) receives a non-background cell volume. -/
theorem rect_initialize_background_witness :
    ∃ c : Fin 3 → ℕ,
      (∀ a, c a < RectArray.dims RectArray.r8 a ∧
        RectArray.gridAt RectArray.r8 a (c a) < (![1/2, 1/2, 1/2] : Real3) a ∧
        (![1/2, 1/2, 1/2] : Real3) a < RectArray.gridAt RectArray.r8 a (c a + 1)) ∧
      RectArray.rectInit RectArray.r8 ![1/2, 1/2, 1/2]
        = ⟨some (RectArray.volIndex RectArray.r8 c), noSurface⟩ ∧
      some (RectArray.volIndex RectArray.r8 c) ≠ RectArray.r8.background :=
  (rect_initialize_background RectArray.r8 ![1/2, 1/2, 1/2]
    (by
      intro a
      fin_cases a <;>
        simp [RectArray.r8, List.chain'_cons, List.chain'_singleton])
    (by decide) (by decide)).2 (by decide)

end

end Celeritas
